import Mathlib

/-!
Verification of the chess rules engine (Board / Pieces / SpecialMoves / Game).

The definitions below are a shallow embedding of the C++ sources:
`src/Position.h`, `src/include/Pieces.h`, `src/src/Pieces.cpp`,
`src/src/board.cpp`, `src/src/SpecialMoves.cpp`, `src/src/game.cpp`.

Modelling conventions:
* machine `int` coordinates become `Int`;
* the 8x8 array of `unique_ptr<Piece>` becomes `Fin 8 → Fin 8 → Option Piece`;
* functions that can dereference a null pointer in C++ return `Option _`,
  where `none` marks the null dereference (undefined behavior); every such
  arm is commented at its definition;
* `std::string` inputs become `List Char` / `String`;
* the interactive promotion prompt becomes an explicit `Char` argument.
-/

namespace Chess

/-- `enum class Color` from `Pieces.h`. -/
inductive Color where
  | white
  | black
deriving DecidableEq, Repr

/-- The six concrete subclasses of `Piece` (`Pieces.h`); the C++ code
distinguishes them via `dynamic_cast` (`isType<T>()`), modelled here as a tag. -/
inductive PieceKind where
  | pawn
  | rook
  | knight
  | bishop
  | queen
  | king
deriving DecidableEq, Repr

/-- `class Position` from `Position.h`: a row/column pair of `int`s,
possibly out of range (the sentinel is `Position(-1,-1)`). -/
structure Position where
  row : Int
  col : Int
deriving DecidableEq, Repr

/-- `Position::isValid()`: both components in `[0,8)`. -/
def Position.isValid (p : Position) : Prop :=
  0 ≤ p.row ∧ p.row < 8 ∧ 0 ≤ p.col ∧ p.col < 8

instance (p : Position) : Decidable p.isValid :=
  inferInstanceAs (Decidable (_ ∧ _ ∧ _ ∧ _))

/-- `class Piece` (`Pieces.h`): color, stored position, `hasMoved` flag and the
dynamic type.  `setPosition` is modelled by record updates that also set
`hasMoved := true`, exactly as the C++ setter does. -/
structure Piece where
  color : Color
  pos : Position
  hasMoved : Bool
  kind : PieceKind
deriving DecidableEq, Repr

/-- `class Board` (`Board.h`): the square array plus the en-passant state. -/
@[ext] structure Board where
  squares : Fin 8 → Fin 8 → Option Piece
  enPassantTarget : Position
  enPassantAvailable : Bool

instance : DecidableEq Board := fun a b =>
  decidable_of_iff
    ((∀ i j, a.squares i j = b.squares i j) ∧
      a.enPassantTarget = b.enPassantTarget ∧
      a.enPassantAvailable = b.enPassantAvailable)
    (by
      constructor
      · rintro ⟨h1, h2, h3⟩
        cases a; cases b
        simp only [Board.mk.injEq]
        exact ⟨funext fun i => funext fun j => h1 i j, h2, h3⟩
      · rintro rfl
        exact ⟨fun i j => rfl, rfl, rfl⟩)

/-- `Board::getPiece(int row, int col)`: bounds-checked array read;
out of range yields `nullptr`. -/
def Board.getPieceRC (b : Board) (row col : Int) : Option Piece :=
  if h : 0 ≤ row ∧ row < 8 ∧ 0 ≤ col ∧ col < 8 then
    b.squares ⟨row.toNat, by omega⟩ ⟨col.toNat, by omega⟩
  else none

/-- `Board::getPiece(const Position&)`: `nullptr` on an invalid position,
otherwise the square's content. -/
def Board.getPiece (b : Board) (pos : Position) : Option Piece :=
  if h : pos.isValid then
    b.squares ⟨pos.row.toNat, by obtain ⟨h1, h2, _, _⟩ := h; omega⟩
      ⟨pos.col.toNat, by obtain ⟨_, _, h3, h4⟩ := h; omega⟩
  else none

/-- `Board::isEmpty(const Position&)`: an INVALID position reports `false`
(occupied-like) — this asymmetry with the row/col overload is in the source. -/
def Board.isEmpty (b : Board) (pos : Position) : Bool :=
  if pos.isValid then (b.getPiece pos).isNone else false

/-- `Board::isEmpty(int row, int col)`: an out-of-range square reports `true`
(empty-like). -/
def Board.isEmptyRC (b : Board) (row col : Int) : Bool :=
  if 0 ≤ row ∧ row < 8 ∧ 0 ≤ col ∧ col < 8 then (b.getPieceRC row col).isNone
  else true

/-- `Board::setPiece`: bounds-guarded write of a square (no-op when invalid). -/
def Board.setPiece (b : Board) (pos : Position) (v : Option Piece) : Board :=
  if pos.isValid then
    { b with
      squares := fun i j =>
        if i.val = pos.row.toNat ∧ j.val = pos.col.toNat then v
        else b.squares i j }
  else b

/-- `Board::removePiece`: moves the square's content out (the square becomes
null), returning the previous content; `nullptr` when out of range. -/
def Board.removePiece (b : Board) (pos : Position) : Option Piece × Board :=
  if pos.isValid then (b.getPiece pos, b.setPiece pos none) else (none, b)

/-- `Board::movePiece(const Position&, const Position&)`: the mechanical
relocation.  `setPosition(to)` also sets `hasMoved := true`. -/
def Board.movePiece (b : Board) (src dst : Position) : Bool × Board :=
  if ¬ src.isValid ∨ ¬ dst.isValid then (false, b)
  else if b.isEmpty src then (false, b)
  else
    let b1 := if ¬ b.isEmpty dst then (b.removePiece dst).2 else b
    let r := b1.removePiece src
    match r.1 with
    | some movingPiece =>
        (true, r.2.setPiece dst (some { movingPiece with pos := dst, hasMoved := true }))
    | none => (false, r.2)

/-- `Board::setEnPassantTarget`. -/
def Board.setEnPassantTarget (b : Board) (pos : Position) : Board :=
  { b with enPassantTarget := pos, enPassantAvailable := true }

/-- `Board::clearEnPassant`. -/
def Board.clearEnPassant (b : Board) : Board :=
  { b with enPassantAvailable := false }

/-- The walking loop of `Board::isPathClear`, stepping one unit from the
current square towards `dst` and testing emptiness of every square reached
before `dst`.  The C++ `while` loop terminates exactly when the walk reaches
`dst`; its callers only pass straight or diagonal segments, on which the walk
reaches `dst` after precisely the number of steps supplied as fuel here, so on
every call actually made this function and the loop coincide. -/
def pathWalk (b : Board) (dst : Position) (rowDir colDir : Int) :
    Int → Int → Nat → Bool
  | _, _, 0 => true
  | cr, cc, n + 1 =>
    if cr = dst.row ∧ cc = dst.col then true
    else if ¬ b.isEmptyRC cr cc then false
    else pathWalk b dst rowDir colDir (cr + rowDir) (cc + colDir) n

/-- `Board::isPathClear`: every strictly intermediate square of the segment is
empty (using the lenient row/col `isEmpty` overload). -/
def Board.isPathClear (b : Board) (src dst : Position) : Bool :=
  let rowDir : Int :=
    if dst.row > src.row then 1 else if dst.row < src.row then -1 else 0
  let colDir : Int :=
    if dst.col > src.col then 1 else if dst.col < src.col then -1 else 0
  pathWalk b dst rowDir colDir (src.row + rowDir) (src.col + colDir)
    (max (dst.row - src.row).natAbs (dst.col - src.col).natAbs - 1)

/-- The en-passant clause shared by both exits of the diagonal branch of
`Pawn::isValidMove`. -/
def pawnEpCheck (dst : Position) (b : Board) : Option Bool :=
  if b.enPassantAvailable ∧ dst = b.enPassantTarget then some true else some false

/-- `Pawn::isValidMove` (`Pieces.cpp`).  The `none` arm models the null
dereference `board.getPiece(dst)->getColor()` that the source performs when
`dst` is invalid: `isEmpty(Position)` then reports "occupied" while
`getPiece` returns `nullptr`. -/
def Pawn.isValidMove? (p : Piece) (dst : Position) (b : Board) : Option Bool :=
  let rowDiff : Int := dst.row - p.pos.row
  let colDiff : Int := (dst.col - p.pos.col).natAbs
  let direction : Int := if p.color = Color.white then -1 else 1
  if colDiff = 0 ∧ rowDiff = direction ∧ b.isEmpty dst then some true
  else if colDiff = 0 ∧ ¬ p.hasMoved ∧ rowDiff = 2 * direction ∧
      b.isEmpty ⟨p.pos.row + direction, p.pos.col⟩ ∧ b.isEmpty dst then some true
  else if colDiff = 1 ∧ rowDiff = direction then
    if ¬ b.isEmpty dst then
      match b.getPiece dst with
      | some q => if ¬ (q.color = p.color) then some true else pawnEpCheck dst b
      | none => none
    else pawnEpCheck dst b
  else some false

/-- `Rook::isValidMove` (`Pieces.cpp`); `none` is the null dereference on an
invalid destination, as in `Pawn.isValidMove?`. -/
def Rook.isValidMove? (p : Piece) (dst : Position) (b : Board) : Option Bool :=
  if p.pos = dst then some false
  else if ¬ (p.pos.row = dst.row) ∧ ¬ (p.pos.col = dst.col) then some false
  else if ¬ b.isPathClear p.pos dst then some false
  else if ¬ b.isEmpty dst then
    match b.getPiece dst with
    | some q => if q.color = p.color then some false else some true
    | none => none
  else some true

/-- `Knight::isValidMove` (`Pieces.cpp`). -/
def Knight.isValidMove? (p : Piece) (dst : Position) (b : Board) : Option Bool :=
  let rowDiff : Int := (dst.row - p.pos.row).natAbs
  let colDiff : Int := (dst.col - p.pos.col).natAbs
  if ¬ ((rowDiff = 2 ∧ colDiff = 1) ∨ (rowDiff = 1 ∧ colDiff = 2)) then some false
  else if ¬ b.isEmpty dst then
    match b.getPiece dst with
    | some q => if q.color = p.color then some false else some true
    | none => none
  else some true

/-- `Bishop::isValidMove` (`Pieces.cpp`). -/
def Bishop.isValidMove? (p : Piece) (dst : Position) (b : Board) : Option Bool :=
  if p.pos = dst then some false
  else
    let rowDiff : Int := (dst.row - p.pos.row).natAbs
    let colDiff : Int := (dst.col - p.pos.col).natAbs
    if ¬ (rowDiff = colDiff) then some false
    else if ¬ b.isPathClear p.pos dst then some false
    else if ¬ b.isEmpty dst then
      match b.getPiece dst with
      | some q => if q.color = p.color then some false else some true
      | none => none
    else some true

/-- `Queen::isValidMove` (`Pieces.cpp`). -/
def Queen.isValidMove? (p : Piece) (dst : Position) (b : Board) : Option Bool :=
  if p.pos = dst then some false
  else
    let rowDiff : Int := (dst.row - p.pos.row).natAbs
    let colDiff : Int := (dst.col - p.pos.col).natAbs
    if ¬ (rowDiff = colDiff) ∧ ¬ (p.pos.row = dst.row) ∧ ¬ (p.pos.col = dst.col) then
      some false
    else if ¬ b.isPathClear p.pos dst then some false
    else if ¬ b.isEmpty dst then
      match b.getPiece dst with
      | some q => if q.color = p.color then some false else some true
      | none => none
    else some true

/-- `King::isValidMove` (`Pieces.cpp`). -/
def King.isValidMove? (p : Piece) (dst : Position) (b : Board) : Option Bool :=
  let rowDiff : Int := (dst.row - p.pos.row).natAbs
  let colDiff : Int := (dst.col - p.pos.col).natAbs
  if 1 < rowDiff ∨ 1 < colDiff then some false
  else if rowDiff = 0 ∧ colDiff = 0 then some false
  else if ¬ b.isEmpty dst then
    match b.getPiece dst with
    | some q => if q.color = p.color then some false else some true
    | none => none
  else some true

/-- The virtual dispatch `piece->isValidMove(dst, board)`. -/
def Piece.isValidMove? (p : Piece) (dst : Position) (b : Board) : Option Bool :=
  match p.kind with
  | PieceKind.pawn => Pawn.isValidMove? p dst b
  | PieceKind.rook => Rook.isValidMove? p dst b
  | PieceKind.knight => Knight.isValidMove? p dst b
  | PieceKind.bishop => Bishop.isValidMove? p dst b
  | PieceKind.queen => Queen.isValidMove? p dst b
  | PieceKind.king => King.isValidMove? p dst b

/-- The row-major enumeration of all squares, as walked by the nested loops
`for i ... for j ...` of `board.cpp` and `game.cpp`. -/
def allSquaresRM : List (Nat × Nat) :=
  (List.range 64).map (fun k => (k / 8, k % 8))

/-- The scanning loop of `Board::isUnderAttack`: first piece of `byColor`
whose move predicate accepts `pos` stops the scan with `true`; a null
dereference inside a predicate (invalid `pos`) aborts everything (`none`). -/
def Board.attackScan (b : Board) (pos : Position) (byColor : Color) :
    List (Nat × Nat) → Option Bool
  | [] => some false
  | (i, j) :: rest =>
    match b.getPieceRC i j with
    | some piece =>
      if piece.color = byColor then
        match piece.isValidMove? pos b with
        | none => none
        | some true => some true
        | some false => b.attackScan pos byColor rest
      else b.attackScan pos byColor rest
    | none => b.attackScan pos byColor rest

/-- `Board::isUnderAttack`. -/
def Board.isUnderAttack? (b : Board) (pos : Position) (byColor : Color) :
    Option Bool :=
  b.attackScan pos byColor allSquaresRM

/-- The scanning loop of `Board::getKingPosition`. -/
def Board.kingScan (b : Board) (color : Color) :
    List (Nat × Nat) → Position
  | [] => ⟨-1, -1⟩
  | (i, j) :: rest =>
    match b.getPieceRC i j with
    | some piece =>
      if piece.color = color ∧ piece.kind = PieceKind.king then ⟨i, j⟩
      else b.kingScan color rest
    | none => b.kingScan color rest

/-- `Board::getKingPosition`: first king of `color` in row-major order, or the
`Position(-1,-1)` sentinel. -/
def Board.getKingPosition (b : Board) (color : Color) : Position :=
  b.kingScan color allSquaresRM

/-- `(color == WHITE) ? BLACK : WHITE`, the enemy-color ternary used
throughout the source. -/
def enemyOf (color : Color) : Color :=
  if color = Color.white then Color.black else Color.white

/-- `Board::isInCheck`: `false` when no king is found. -/
def Board.isInCheck? (b : Board) (color : Color) : Option Bool :=
  let kingPos := b.getKingPosition color
  if ¬ kingPos.isValid then some false
  else b.isUnderAttack? kingPos (enemyOf color)

/-- `Board::wouldBeInCheck`: simulate the move, query `isInCheck`, then undo.
Returns the check answer together with the board left behind.  The `none`
arms mark null dereferences (`movingPiece->`, `tempMoving->`, `restore->`);
all are unreachable because the source square was checked non-empty and both
positions valid. -/
def Board.wouldBeInCheck? (b : Board) (src dst : Position) (color : Color) :
    Option (Bool × Board) :=
  if ¬ src.isValid ∨ ¬ dst.isValid then some (true, b)
  else if b.isEmpty src then some (true, b)
  else
    match b.getPiece src with
    | none => none
    | some movingPiece =>
      let movingPieceHadMoved := movingPiece.hasMoved
      let r1 := b.removePiece src
      let r2 := r1.2.removePiece dst
      match r1.1 with
      | none => none
      | some tempMoving =>
        let b3 := r2.2.setPiece dst (some { tempMoving with pos := dst, hasMoved := true })
        match b3.isInCheck? color with
        | none => none
        | some inCheck =>
          let r3 := b3.removePiece dst
          match r3.1 with
          | none => none
          | some restore =>
            let b5 := r3.2.setPiece src
              (some { restore with pos := src, hasMoved := movingPieceHadMoved })
            let b6 :=
              match r2.1 with
              | some tempCaptured => b5.setPiece dst (some tempCaptured)
              | none => b5
            some (inCheck, b6)

/-- `SpecialMoves::canCastleKingSide` (`SpecialMoves.cpp`).  The `none` arms
propagate a null dereference from `isUnderAttack` (never reached: the three
queried squares are valid). -/
def SpecialMoves.canCastleKingSide? (color : Color) (b : Board) : Option Bool :=
  let row : Int := if color = Color.white then 7 else 0
  match b.getPieceRC row 4, b.getPieceRC row 7 with
  | some king, some rook =>
    if king.hasMoved ∨ rook.hasMoved then some false
    else if ¬ (king.kind = PieceKind.king) ∨ ¬ (rook.kind = PieceKind.rook) then
      some false
    else if ¬ b.isEmptyRC row 5 ∨ ¬ b.isEmptyRC row 6 then some false
    else
      let enemyColor := enemyOf color
      match b.isUnderAttack? ⟨row, 4⟩ enemyColor with
      | none => none
      | some true => some false
      | some false =>
        match b.isUnderAttack? ⟨row, 5⟩ enemyColor with
        | none => none
        | some true => some false
        | some false =>
          match b.isUnderAttack? ⟨row, 6⟩ enemyColor with
          | none => none
          | some true => some false
          | some false => some true
  | _, _ => some false

/-- `SpecialMoves::canCastleQueenSide` (`SpecialMoves.cpp`). -/
def SpecialMoves.canCastleQueenSide? (color : Color) (b : Board) : Option Bool :=
  let row : Int := if color = Color.white then 7 else 0
  match b.getPieceRC row 4, b.getPieceRC row 0 with
  | some king, some rook =>
    if king.hasMoved ∨ rook.hasMoved then some false
    else if ¬ (king.kind = PieceKind.king) ∨ ¬ (rook.kind = PieceKind.rook) then
      some false
    else if ¬ b.isEmptyRC row 1 ∨ ¬ b.isEmptyRC row 2 ∨ ¬ b.isEmptyRC row 3 then
      some false
    else
      let enemyColor := enemyOf color
      match b.isUnderAttack? ⟨row, 4⟩ enemyColor with
      | none => none
      | some true => some false
      | some false =>
        match b.isUnderAttack? ⟨row, 3⟩ enemyColor with
        | none => none
        | some true => some false
        | some false =>
          match b.isUnderAttack? ⟨row, 2⟩ enemyColor with
          | none => none
          | some true => some false
          | some false => some true
  | _, _ => some false

/-- `SpecialMoves::performCastling` (`SpecialMoves.cpp`): unconditional
relocation of king and rook (`setPosition` marks both moved).  `none` models
the null dereference when either home square is empty — callers validate
`canCastle` first. -/
def SpecialMoves.performCastling? (color : Color) (kingSide : Bool) (b : Board) :
    Option Board :=
  let row : Int := if color = Color.white then 7 else 0
  if kingSide then
    let rk := b.removePiece ⟨row, 4⟩
    match rk.1 with
    | none => none
    | some king =>
      let b1 := rk.2.setPiece ⟨row, 6⟩ (some { king with pos := ⟨row, 6⟩, hasMoved := true })
      let rr := b1.removePiece ⟨row, 7⟩
      match rr.1 with
      | none => none
      | some rook =>
        some (rr.2.setPiece ⟨row, 5⟩ (some { rook with pos := ⟨row, 5⟩, hasMoved := true }))
  else
    let rk := b.removePiece ⟨row, 4⟩
    match rk.1 with
    | none => none
    | some king =>
      let b1 := rk.2.setPiece ⟨row, 2⟩ (some { king with pos := ⟨row, 2⟩, hasMoved := true })
      let rr := b1.removePiece ⟨row, 0⟩
      match rr.1 with
      | none => none
      | some rook =>
        some (rr.2.setPiece ⟨row, 3⟩ (some { rook with pos := ⟨row, 3⟩, hasMoved := true }))

/-- `SpecialMoves::promotePawn` (`SpecialMoves.cpp`): replace the pawn at
`pos` by a freshly constructed piece (constructor sets `hasMoved := false`);
unknown letters default to Queen; silently a no-op when the square is empty
or not a pawn. -/
def SpecialMoves.promotePawn (pos : Position) (choice : Char) (b : Board) : Board :=
  match b.getPiece pos with
  | none => b
  | some piece =>
    if ¬ (piece.kind = PieceKind.pawn) then b
    else
      let color := piece.color
      let b1 := (b.removePiece pos).2
      let newKind : PieceKind :=
        if choice = 'Q' ∨ choice = 'q' then PieceKind.queen
        else if choice = 'R' ∨ choice = 'r' then PieceKind.rook
        else if choice = 'B' ∨ choice = 'b' then PieceKind.bishop
        else if choice = 'N' ∨ choice = 'n' then PieceKind.knight
        else PieceKind.queen
      b1.setPiece pos (some ⟨color, pos, false, newKind⟩)

/-- `SpecialMoves::isEnPassantMove` (`SpecialMoves.cpp`). -/
def SpecialMoves.isEnPassantMove (src dst : Position) (b : Board) : Bool :=
  match b.getPiece src with
  | none => false
  | some piece =>
    if ¬ (piece.kind = PieceKind.pawn) then false
    else if ¬ b.enPassantAvailable then false
    else if ¬ (dst = b.enPassantTarget) then false
    else true

/-- `SpecialMoves::performEnPassant` (`SpecialMoves.cpp`): relocate the pawn
and remove the passed pawn one rank behind the destination.  `none` models the
`pawn->getColor()` null dereference when `src` is empty. -/
def SpecialMoves.performEnPassant? (src dst : Position) (b : Board) :
    Option Board :=
  let rp := b.removePiece src
  match rp.1 with
  | none => none
  | some pawn =>
    let capturedRow : Int :=
      if pawn.color = Color.white then dst.row + 1 else dst.row - 1
    let b2 := (rp.2.removePiece ⟨capturedRow, dst.col⟩).2
    some (b2.setPiece dst (some { pawn with pos := dst, hasMoved := true }))

/-- `class Player` (`Player.h` / `Player.cpp`): bookkeeping only. -/
structure Player where
  name : String
  color : Color
  isInCheck : Bool
  score : Int
  capturedPieceValue : Int
deriving DecidableEq, Repr

/-- The `Game` state (`Game.h`): board, both players, the `currentPlayer`
pointer (modelled as a flag selecting white or black), `gameOver`, `winner`. -/
structure GameState where
  board : Board
  whitePlayer : Player
  blackPlayer : Player
  currentIsWhite : Bool
  gameOver : Bool
  winner : String
deriving DecidableEq

/-- `currentPlayer->getColor()`. -/
def GameState.currentColor (g : GameState) : Color :=
  if g.currentIsWhite then Color.white else Color.black

/-- `currentPlayer->setIsInCheck(v)`. -/
def GameState.setCurrentInCheck (g : GameState) (v : Bool) : GameState :=
  if g.currentIsWhite then
    { g with whitePlayer := { g.whitePlayer with isInCheck := v } }
  else
    { g with blackPlayer := { g.blackPlayer with isInCheck := v } }

/-- `currentPlayer->addCapturedPieceValue(v)`. -/
def GameState.addCapturedToCurrent (g : GameState) (v : Int) : GameState :=
  if g.currentIsWhite then
    { g with whitePlayer :=
        { g.whitePlayer with capturedPieceValue := g.whitePlayer.capturedPieceValue + v } }
  else
    { g with blackPlayer :=
        { g.blackPlayer with capturedPieceValue := g.blackPlayer.capturedPieceValue + v } }

/-- `(currentPlayer == &whitePlayer) ? &blackPlayer : &whitePlayer` — the
non-current player, used for the winner's name. -/
def GameState.otherPlayerName (g : GameState) : String :=
  if g.currentIsWhite then g.blackPlayer.name else g.whitePlayer.name

/-- `Game::switchPlayer`. -/
def GameState.switchPlayer (g : GameState) : GameState :=
  { g with currentIsWhite := ! g.currentIsWhite }

/-- The capture-value table of `Game::makeMove` (`game.cpp` lines 198-208):
`pieceValue` stays `0` for a King (no branch matches its name). -/
def pieceValue : PieceKind → Int
  | PieceKind.pawn => 1
  | PieceKind.knight => 3
  | PieceKind.bishop => 3
  | PieceKind.rook => 5
  | PieceKind.queen => 9
  | PieceKind.king => 0

/-- `Game::parsePosition` (`game.cpp`): two characters, file letter then rank
digit; anything else yields the `Position(-1,-1)` sentinel. -/
def Game.parsePosition (s : List Char) : Position :=
  match s with
  | [c0, c1] =>
    let col := c0.toLower
    let row := c1
    if col < 'a' ∨ 'h' < col ∨ row < '1' ∨ '8' < row then ⟨-1, -1⟩
    else ⟨8 - ((row.toNat : Int) - ('0'.toNat : Int)), (col.toNat : Int) - ('a'.toNat : Int)⟩
  | _ => ⟨-1, -1⟩

/-- The loop body of `Game::hasValidMoves` over the destination squares for a
fixed piece: pattern-legal and not king-exposing.  `wouldBeInCheck` restores
the board it was handed (theorem `wouldBeInCheck_frame` below), so the scan
legitimately keeps using `b`. -/
def hvmInner (b : Board) (color : Color) (piece : Piece) (src : Position) :
    List (Nat × Nat) → Option Bool
  | [] => some false
  | (ti, tj) :: rest =>
    let dst : Position := ⟨ti, tj⟩
    match piece.isValidMove? dst b with
    | none => none
    | some true =>
      match b.wouldBeInCheck? src dst color with
      | none => none
      | some (chk, _) =>
        if ¬ chk then some true else hvmInner b color piece src rest
    | some false => hvmInner b color piece src rest

/-- The outer loop of `Game::hasValidMoves` over the mover's pieces. -/
def hvmOuter (b : Board) (color : Color) : List (Nat × Nat) → Option Bool
  | [] => some false
  | (i, j) :: rest =>
    match b.getPieceRC i j with
    | some piece =>
      if piece.color = color then
        match hvmInner b color piece ⟨i, j⟩ allSquaresRM with
        | none => none
        | some true => some true
        | some false => hvmOuter b color rest
      else hvmOuter b color rest
    | none => hvmOuter b color rest

/-- `Game::hasValidMoves` (`game.cpp`). -/
def hasValidMoves? (b : Board) (color : Color) : Option Bool :=
  hvmOuter b color allSquaresRM

/-- `Game::checkGameStatus` (`game.cpp`): flag check status, and when the
current player has no legal move end the game, recording the other player as
winner exactly when the current player is in check. -/
def Game.checkGameStatus? (g : GameState) : Option GameState :=
  match g.board.isInCheck? g.currentColor with
  | none => none
  | some inCheck =>
    let g1 := g.setCurrentInCheck inCheck
    match hasValidMoves? g1.board g1.currentColor with
    | none => none
    | some hasLegalMoves =>
      if ¬ hasLegalMoves then
        let g2 := { g1 with gameOver := true }
        if inCheck then some { g2 with winner := g2.otherPlayerName } else some g2
      else some g1

/-- The outcome of `Game::makeMove` / `Game::handleCastling`: the returned
boolean, or the thrown `std::runtime_error`, each with the state left behind. -/
inductive MoveResult where
  | ok (g : GameState)
  | fail (g : GameState)
  | err (msg : String) (g : GameState)
deriving DecidableEq

/-- The state a `MoveResult` leaves behind. -/
def MoveResult.state : MoveResult → GameState
  | MoveResult.ok g => g
  | MoveResult.fail g => g
  | MoveResult.err _ g => g

/-- Step 10 of `Game::makeMove`: set the new en-passant target when the ply
was a pawn double step (the jumped-over square, `(fromRow+toRow)/2`; both rows
are non-negative, so C++ and Lean integer division agree). -/
def Game.epStep (g : GameState) (fromPos toPos : Position) (isDouble : Bool) :
    GameState :=
  if isDouble then
    { g with board :=
        g.board.setEnPassantTarget ⟨(fromPos.row + toPos.row) / 2, fromPos.col⟩ }
  else g

/-- Step 11 of `Game::makeMove`: re-fetch the piece at the destination and
promote a pawn standing on its terminal rank (`promoChoice` stands for the
letter read from the console by `handlePromotion`). -/
def Game.promoStep (g : GameState) (toPos : Position) (promoChoice : Char) :
    GameState :=
  match g.board.getPiece toPos with
  | some piece2 =>
    if piece2.kind = PieceKind.pawn ∧
        ((piece2.color = Color.white ∧ toPos.row = 0) ∨
          (piece2.color = Color.black ∧ toPos.row = 7)) then
      { g with board := SpecialMoves.promotePawn toPos promoChoice g.board }
    else g
  | none => g

/-- Tail of `Game::makeMove` after the move has been executed: en-passant
target update, promotion, switch players and run `checkGameStatus`. -/
def Game.moveTail (g : GameState) (fromPos toPos : Position) (isDouble : Bool)
    (promoChoice : Char) : Option MoveResult :=
  match Game.checkGameStatus?
      ((Game.promoStep (Game.epStep g fromPos toPos isDouble) toPos
        promoChoice).switchPlayer) with
  | none => none
  | some g3 => some (MoveResult.ok g3)

/-- Step 12 (performed before the move in the source, `game.cpp` lines
194-211): captured-piece bookkeeping, reading the DESTINATION square before
anything moves. -/
def Game.captureStep (g : GameState) (toPos : Position) : GameState :=
  match g.board.getPiece toPos with
  | some captured =>
    if ¬ (captured.color = g.currentColor) then
      g.addCapturedToCurrent (pieceValue captured.kind)
    else g
  | none => g

/-- Middle of `Game::makeMove` after the king-safety gate: captured-piece
bookkeeping, en-passant / double-step detection, clearing the en-passant flag,
and executing the move. -/
def Game.execMove (g : GameState) (fromPos toPos : Position) (piece : Piece)
    (promoChoice : Char) : Option MoveResult :=
  let g1 := Game.captureStep g toPos
  let isEP := SpecialMoves.isEnPassantMove fromPos toPos g1.board
  let isDouble : Bool :=
    piece.kind = PieceKind.pawn ∧ (toPos.row - fromPos.row).natAbs = 2
  let g2 := { g1 with board := g1.board.clearEnPassant }
  if isEP then
    match SpecialMoves.performEnPassant? fromPos toPos g2.board with
    | none => none
    | some b3 => Game.moveTail { g2 with board := b3 } fromPos toPos isDouble promoChoice
  else
    match g2.board.movePiece fromPos toPos with
    | (false, b3) => some (MoveResult.fail { g2 with board := b3 })
    | (true, b3) => Game.moveTail { g2 with board := b3 } fromPos toPos isDouble promoChoice

/-- `Game::makeMove` (`game.cpp`): parse, validate ownership and pattern
legality, king-safety gate, then `execMove`/`moveTail`.  The thrown
`std::runtime_error`s become `MoveResult.err`. -/
def Game.makeMove? (g : GameState) (fromStr toStr : List Char)
    (promoChoice : Char) : Option MoveResult :=
  let fromPos := Game.parsePosition fromStr
  let toPos := Game.parsePosition toStr
  if ¬ fromPos.isValid ∨ ¬ toPos.isValid then some (MoveResult.fail g)
  else
    match g.board.getPiece fromPos with
    | none => some (MoveResult.err "No piece at that position!" g)
    | some piece =>
      if ¬ (piece.color = g.currentColor) then
        some (MoveResult.err "That is not your piece!" g)
      else
        match piece.isValidMove? toPos g.board with
        | none => none
        | some false => some (MoveResult.fail g)
        | some true =>
          match g.board.wouldBeInCheck? fromPos toPos g.currentColor with
          | none => none
          | some (true, b1) =>
            some (MoveResult.err "Move would leave king in check!" { g with board := b1 })
          | some (false, b1) =>
            Game.execMove { g with board := b1 } fromPos toPos piece promoChoice

/-- `Game::handleCastling` (`game.cpp`): validate `canCastle`, execute, clear
en passant, switch players, `checkGameStatus`.  The two symmetric C++ branches
are merged over the `kingSide` flag computed from the command string. -/
def Game.handleCastling? (g : GameState) (command : String) : Option MoveResult :=
  let kingSide : Bool := command = "kingside"
  match (if kingSide then SpecialMoves.canCastleKingSide? g.currentColor g.board
         else SpecialMoves.canCastleQueenSide? g.currentColor g.board) with
  | none => none
  | some false =>
    some (MoveResult.err
      (if kingSide then "Cannot castle kingside!" else "Cannot castle queenside!") g)
  | some true =>
    match SpecialMoves.performCastling? g.currentColor kingSide g.board with
    | none => none
    | some b2 =>
      let g1 := { g with board := b2.clearEnPassant }
      match Game.checkGameStatus? g1.switchPlayer with
      | none => none
      | some g2 => some (MoveResult.ok g2)

/-- The back rank of `Board::initialize`. -/
def backKind (j : Nat) : PieceKind :=
  if j = 0 ∨ j = 7 then PieceKind.rook
  else if j = 1 ∨ j = 6 then PieceKind.knight
  else if j = 2 ∨ j = 5 then PieceKind.bishop
  else if j = 3 then PieceKind.queen
  else PieceKind.king

/-- The squares placed by `Board::initialize`. -/
def initialSquares : Fin 8 → Fin 8 → Option Piece := fun i j =>
  if i.val = 0 then some ⟨Color.black, ⟨0, j.val⟩, false, backKind j.val⟩
  else if i.val = 1 then some ⟨Color.black, ⟨1, j.val⟩, false, PieceKind.pawn⟩
  else if i.val = 6 then some ⟨Color.white, ⟨6, j.val⟩, false, PieceKind.pawn⟩
  else if i.val = 7 then some ⟨Color.white, ⟨7, j.val⟩, false, backKind j.val⟩
  else none

/-- `Board()` followed by `Board::initialize()`: the starting position (the
constructor leaves `enPassantTarget` at the default `Position(0,0)` and
`enPassantAvailable` false). -/
def initialBoard : Board :=
  { squares := initialSquares, enPassantTarget := ⟨0, 0⟩, enPassantAvailable := false }

/-- The `Game` constructor state (`Game.h`): initialized board, default player
names, white to move; `winner` is the empty string. -/
def initialGame : GameState :=
  { board := initialBoard
    whitePlayer := ⟨"White", Color.white, false, 0, 0⟩
    blackPlayer := ⟨"Black", Color.black, false, 0, 0⟩
    currentIsWhite := true
    gameOver := false
    winner := "" }

/-! ### Basic lemmas about squares, `getPiece`, `setPiece`, `isEmpty` -/

theorem Position.eq_of_components {p q : Position} (hr : p.row = q.row)
    (hc : p.col = q.col) : p = q := by
  cases p; cases q; simp_all

theorem Board.getPiece_invalid (b : Board) (pos : Position)
    (h : ¬ pos.isValid) : b.getPiece pos = none := by
  unfold getPiece; rw [dif_neg h]

theorem Board.isEmpty_invalid (b : Board) (pos : Position)
    (h : ¬ pos.isValid) : b.isEmpty pos = false := by
  unfold isEmpty; rw [if_neg h]

theorem Board.isEmpty_valid (b : Board) (pos : Position)
    (h : pos.isValid) : b.isEmpty pos = (b.getPiece pos).isNone := by
  unfold isEmpty; rw [if_pos h]

theorem Board.getPiece_isSome_of_not_isEmpty (b : Board) (pos : Position)
    (h : pos.isValid) (he : ¬ b.isEmpty pos = true) :
    ∃ p, b.getPiece pos = some p := by
  rw [isEmpty_valid b pos h] at he
  cases hg : b.getPiece pos with
  | none => rw [hg] at he; simp at he
  | some p => exact ⟨p, rfl⟩

theorem Board.isEmpty_eq_false (b : Board) (pos : Position) (p : Piece)
    (hp : b.getPiece pos = some p) (h : pos.isValid) :
    b.isEmpty pos = false := by
  rw [isEmpty_valid b pos h, hp]; rfl

theorem Board.valid_of_getPiece_some (b : Board) (pos : Position) (p : Piece)
    (hp : b.getPiece pos = some p) : pos.isValid := by
  by_contra h
  rw [getPiece_invalid b pos h] at hp
  cases hp

theorem Board.getPiece_setPiece_same (b : Board) (pos : Position)
    (v : Option Piece) (h : pos.isValid) :
    (b.setPiece pos v).getPiece pos = v := by
  unfold setPiece getPiece
  rw [if_pos h, dif_pos h]
  simp

theorem Board.getPiece_setPiece_other (b : Board) (pos q : Position)
    (v : Option Piece) (h : q ≠ pos) :
    (b.setPiece pos v).getPiece q = b.getPiece q := by
  unfold setPiece getPiece
  by_cases hq : q.isValid
  · by_cases hp : pos.isValid
    · rw [if_pos hp, dif_pos hq, dif_pos hq]
      refine if_neg ?_
      intro ⟨e1, e2⟩
      have e1' : q.row.toNat = pos.row.toNat := e1
      have e2' : q.col.toNat = pos.col.toNat := e2
      obtain ⟨a1, a2, a3, a4⟩ := hq
      obtain ⟨b1, b2, b3, b4⟩ := hp
      exact h (Position.eq_of_components (by omega) (by omega))
    · rw [if_neg hp]
  · rw [dif_neg hq, dif_neg hq]

theorem Board.setPiece_enPassantTarget (b : Board) (pos : Position)
    (v : Option Piece) :
    (b.setPiece pos v).enPassantTarget = b.enPassantTarget := by
  unfold setPiece; split <;> rfl

theorem Board.setPiece_enPassantAvailable (b : Board) (pos : Position)
    (v : Option Piece) :
    (b.setPiece pos v).enPassantAvailable = b.enPassantAvailable := by
  unfold setPiece; split <;> rfl

theorem Board.removePiece_fst (b : Board) (pos : Position) :
    (b.removePiece pos).1 = b.getPiece pos := by
  unfold removePiece
  split
  · rfl
  · rw [getPiece_invalid]; assumption

theorem Board.removePiece_snd (b : Board) (pos : Position) :
    (b.removePiece pos).2 = b.setPiece pos none := by
  unfold removePiece
  split
  · rfl
  · unfold setPiece; rw [if_neg]; assumption

/-- Boards agreeing on `getPiece` at every valid position (and on the
en-passant state) are equal. -/
theorem Board.ext_getPiece (a b : Board)
    (hsq : ∀ pos : Position, pos.isValid → a.getPiece pos = b.getPiece pos)
    (ht : a.enPassantTarget = b.enPassantTarget)
    (ha : a.enPassantAvailable = b.enPassantAvailable) : a = b := by
  refine Board.ext ?_ ht ha
  funext i j
  have hv : (⟨(i.val : Int), (j.val : Int)⟩ : Position).isValid := by
    refine ⟨?_, ?_, ?_, ?_⟩ <;> simp only [] <;> omega
  have h := hsq ⟨(i.val : Int), (j.val : Int)⟩ hv
  unfold getPiece at h
  rw [dif_pos hv, dif_pos hv] at h
  exact h

/-- Writing back the exact content of a square is the identity. -/
theorem Board.setPiece_getPiece_self (b : Board) (pos : Position) (p : Piece)
    (hp : b.getPiece pos = some p) : b.setPiece pos (some p) = b := by
  have hv := valid_of_getPiece_some b pos p hp
  apply Board.ext_getPiece
  · intro q hq
    by_cases hqp : q = pos
    · subst hqp; rw [getPiece_setPiece_same _ _ _ hq, hp]
    · rw [getPiece_setPiece_other _ _ _ _ hqp]
  · exact setPiece_enPassantTarget b pos _
  · exact setPiece_enPassantAvailable b pos _

/-! ### The move predicates never dereference null on a valid destination -/

theorem pawnEpCheck_some (dst : Position) (b : Board) :
    ∃ v, pawnEpCheck dst b = some v := by
  unfold pawnEpCheck
  split
  · exact ⟨true, rfl⟩
  · exact ⟨false, rfl⟩

theorem pawnValid_some (p : Piece) (dst : Position) (b : Board)
    (h : dst.isValid) : ∃ v, Pawn.isValidMove? p dst b = some v := by
  simp only [Pawn.isValidMove?]
  cases hq : b.getPiece dst with
  | some q =>
    simp only [hq]
    split_ifs <;> first
      | exact ⟨_, rfl⟩
      | exact pawnEpCheck_some dst b
  | none =>
    have hemt : b.isEmpty dst = true := by
      rw [Board.isEmpty_valid _ _ h, hq]; rfl
    simp only [hq, hemt]
    split_ifs <;> first
      | exact ⟨_, rfl⟩
      | exact pawnEpCheck_some dst b
      | exact absurd trivial (by assumption)

theorem rookValid_some (p : Piece) (dst : Position) (b : Board)
    (h : dst.isValid) : ∃ v, Rook.isValidMove? p dst b = some v := by
  simp only [Rook.isValidMove?]
  cases hq : b.getPiece dst with
  | some q =>
    simp only [hq]
    split_ifs <;> exact ⟨_, rfl⟩
  | none =>
    have hemt : b.isEmpty dst = true := by
      rw [Board.isEmpty_valid _ _ h, hq]; rfl
    simp only [hq, hemt]
    split_ifs <;> first
      | exact ⟨_, rfl⟩
      | exact absurd trivial (by assumption)

theorem knightValid_some (p : Piece) (dst : Position) (b : Board)
    (h : dst.isValid) : ∃ v, Knight.isValidMove? p dst b = some v := by
  simp only [Knight.isValidMove?]
  cases hq : b.getPiece dst with
  | some q =>
    simp only [hq]
    split_ifs <;> exact ⟨_, rfl⟩
  | none =>
    have hemt : b.isEmpty dst = true := by
      rw [Board.isEmpty_valid _ _ h, hq]; rfl
    simp only [hq, hemt]
    split_ifs <;> first
      | exact ⟨_, rfl⟩
      | exact absurd trivial (by assumption)

theorem bishopValid_some (p : Piece) (dst : Position) (b : Board)
    (h : dst.isValid) : ∃ v, Bishop.isValidMove? p dst b = some v := by
  simp only [Bishop.isValidMove?]
  cases hq : b.getPiece dst with
  | some q =>
    simp only [hq]
    split_ifs <;> exact ⟨_, rfl⟩
  | none =>
    have hemt : b.isEmpty dst = true := by
      rw [Board.isEmpty_valid _ _ h, hq]; rfl
    simp only [hq, hemt]
    split_ifs <;> first
      | exact ⟨_, rfl⟩
      | exact absurd trivial (by assumption)

theorem queenValid_some (p : Piece) (dst : Position) (b : Board)
    (h : dst.isValid) : ∃ v, Queen.isValidMove? p dst b = some v := by
  simp only [Queen.isValidMove?]
  cases hq : b.getPiece dst with
  | some q =>
    simp only [hq]
    split_ifs <;> exact ⟨_, rfl⟩
  | none =>
    have hemt : b.isEmpty dst = true := by
      rw [Board.isEmpty_valid _ _ h, hq]; rfl
    simp only [hq, hemt]
    split_ifs <;> first
      | exact ⟨_, rfl⟩
      | exact absurd trivial (by assumption)

theorem kingValid_some (p : Piece) (dst : Position) (b : Board)
    (h : dst.isValid) : ∃ v, King.isValidMove? p dst b = some v := by
  simp only [King.isValidMove?]
  cases hq : b.getPiece dst with
  | some q =>
    simp only [hq]
    split_ifs <;> exact ⟨_, rfl⟩
  | none =>
    have hemt : b.isEmpty dst = true := by
      rw [Board.isEmpty_valid _ _ h, hq]; rfl
    simp only [hq, hemt]
    split_ifs <;> first
      | exact ⟨_, rfl⟩
      | exact absurd trivial (by assumption)

theorem pieceValid_some (p : Piece) (dst : Position) (b : Board)
    (h : dst.isValid) : ∃ v, p.isValidMove? dst b = some v := by
  unfold Piece.isValidMove?
  cases p.kind
  · exact pawnValid_some p dst b h
  · exact rookValid_some p dst b h
  · exact knightValid_some p dst b h
  · exact bishopValid_some p dst b h
  · exact queenValid_some p dst b h
  · exact kingValid_some p dst b h

theorem Board.attackScan_some (b : Board) (pos : Position) (c : Color)
    (h : pos.isValid) (l : List (Nat × Nat)) :
    ∃ v, b.attackScan pos c l = some v := by
  induction l with
  | nil => exact ⟨false, rfl⟩
  | cons hd rest ih =>
    obtain ⟨i, j⟩ := hd
    simp only [Board.attackScan]
    cases hg : b.getPieceRC i j with
    | none => simp only [hg]; exact ih
    | some piece =>
      simp only [hg]
      split
      · obtain ⟨v, hv⟩ := pieceValid_some piece pos b h
        rw [hv]
        cases v
        · exact ih
        · exact ⟨true, rfl⟩
      · exact ih

theorem Board.isUnderAttack?_some (b : Board) (pos : Position) (c : Color)
    (h : pos.isValid) : ∃ v, b.isUnderAttack? pos c = some v :=
  b.attackScan_some pos c h allSquaresRM

theorem Board.isInCheck?_some (b : Board) (c : Color) :
    ∃ v, b.isInCheck? c = some v := by
  simp only [isInCheck?]
  split
  · exact ⟨false, rfl⟩
  · rename_i h
    exact b.isUnderAttack?_some _ _ (not_not.mp h)

/-! ### The `wouldBeInCheck` frame theorem: the only net effect of the
simulate/rollback cycle is that the moving piece's stored position is
overwritten with the source square (its `hasMoved` flag is restored). -/

theorem Board.wouldBeInCheck_frame (b : Board) (src dst : Position) (c : Color)
    (p : Piece) (h1 : src.isValid) (h2 : dst.isValid)
    (hp : b.getPiece src = some p) :
    ∃ r, b.wouldBeInCheck? src dst c =
      some (r, b.setPiece src (some { p with pos := src })) := by
  have hval : ¬ (¬ src.isValid ∨ ¬ dst.isValid) := by
    push_neg
    exact ⟨h1, h2⟩
  have hemp : ¬ (b.isEmpty src = true) := by
    rw [Board.isEmpty_eq_false b src p hp h1]
    simp
  obtain ⟨v, hv⟩ := Board.isInCheck?_some
    (((b.setPiece src none).setPiece dst none).setPiece dst
      (some { p with pos := dst, hasMoved := true })) c
  refine ⟨v, ?_⟩
  unfold wouldBeInCheck?
  rw [if_neg hval, if_neg hemp, hp]
  simp only [Board.removePiece_fst, Board.removePiece_snd, hp, hv,
    Board.getPiece_setPiece_same _ dst _ h2]
  rcases hdst : (b.setPiece src none).getPiece dst with _ | cpiece
  all_goals simp only []
  · -- no piece stood on the destination square
    refine congrArg some (congrArg (Prod.mk v) ?_)
    refine Board.ext_getPiece _ _ ?_ ?_ ?_
    · intro q hq
      by_cases hqs : q = src
      · subst hqs
        rw [Board.getPiece_setPiece_same _ _ _ hq,
          Board.getPiece_setPiece_same _ _ _ hq]
      · rw [Board.getPiece_setPiece_other _ _ _ _ hqs,
          Board.getPiece_setPiece_other _ _ _ _ hqs]
        by_cases hqd : q = dst
        · subst hqd
          rw [Board.getPiece_setPiece_same _ _ _ hq]
          rw [Board.getPiece_setPiece_other _ _ _ _ hqs] at hdst
          exact hdst.symm
        · rw [Board.getPiece_setPiece_other _ _ _ _ hqd,
            Board.getPiece_setPiece_other _ _ _ _ hqd,
            Board.getPiece_setPiece_other _ _ _ _ hqd,
            Board.getPiece_setPiece_other _ _ _ _ hqs]
    · simp only [Board.setPiece_enPassantTarget]
    · simp only [Board.setPiece_enPassantAvailable]
  · -- a piece stood on the destination square and is put back
    have hds : ¬ (dst = src) := by
      intro he
      rw [he, Board.getPiece_setPiece_same _ _ _ h1] at hdst
      cases hdst
    rw [Board.getPiece_setPiece_other _ _ _ _ hds] at hdst
    refine congrArg some (congrArg (Prod.mk v) ?_)
    refine Board.ext_getPiece _ _ ?_ ?_ ?_
    · intro q hq
      by_cases hqd : q = dst
      · subst hqd
        rw [Board.getPiece_setPiece_same _ _ _ hq,
          Board.getPiece_setPiece_other _ _ _ _ hds, hdst]
      · rw [Board.getPiece_setPiece_other _ _ _ _ hqd]
        by_cases hqs : q = src
        · subst hqs
          rw [Board.getPiece_setPiece_same _ _ _ hq,
            Board.getPiece_setPiece_same _ _ _ hq]
        · rw [Board.getPiece_setPiece_other _ _ _ _ hqs,
            Board.getPiece_setPiece_other _ _ _ _ hqd,
            Board.getPiece_setPiece_other _ _ _ _ hqd,
            Board.getPiece_setPiece_other _ _ _ _ hqd,
            Board.getPiece_setPiece_other _ _ _ _ hqs,
            Board.getPiece_setPiece_other _ _ _ _ hqs]
    · simp only [Board.setPiece_enPassantTarget]
    · simp only [Board.setPiece_enPassantAvailable]

/-- When the moving piece's stored position already equals its square — the
data-model invariant of §3 of the spec — the rollback is exact. -/
theorem Board.wouldBeInCheck_restores (b : Board) (src dst : Position)
    (c : Color) (p : Piece) (h1 : src.isValid) (h2 : dst.isValid)
    (hp : b.getPiece src = some p) (hpos : p.pos = src) :
    ∃ r, b.wouldBeInCheck? src dst c = some (r, b) := by
  obtain ⟨r, hr⟩ := Board.wouldBeInCheck_frame b src dst c p h1 h2 hp
  refine ⟨r, ?_⟩
  rw [hr]
  have hid : ({ p with pos := src } : Piece) = p := by
    cases p
    simp_all
  rw [hid, Board.setPiece_getPiece_self b src p hp]

/-- `wouldBeInCheck` always returns (no null dereference is reachable). -/
theorem Board.wouldBeInCheck_some (b : Board) (src dst : Position) (c : Color) :
    ∃ r, b.wouldBeInCheck? src dst c = some r := by
  by_cases hval : ¬ src.isValid ∨ ¬ dst.isValid
  · refine ⟨(true, b), ?_⟩
    unfold wouldBeInCheck?
    rw [if_pos hval]
  · push_neg at hval
    obtain ⟨h1, h2⟩ := hval
    by_cases hemp : b.isEmpty src = true
    · refine ⟨(true, b), ?_⟩
      unfold wouldBeInCheck?
      rw [if_neg (by push_neg; exact ⟨h1, h2⟩), if_pos hemp]
    · obtain ⟨p, hp⟩ := Board.getPiece_isSome_of_not_isEmpty b src h1 hemp
      obtain ⟨r, hr⟩ := Board.wouldBeInCheck_frame b src dst c p h1 h2 hp
      exact ⟨_, hr⟩

/-! ### The legal-move scan never dereferences null -/

theorem allSquaresRM_bound : ∀ x ∈ allSquaresRM, x.1 < 8 ∧ x.2 < 8 := by decide

theorem posOfNat_isValid (i j : Nat) (hi : i < 8) (hj : j < 8) :
    (⟨(i : Int), (j : Int)⟩ : Position).isValid := by
  refine ⟨?_, ?_, ?_, ?_⟩ <;> simp only [] <;> omega

theorem hvmInner_some (b : Board) (color : Color) (piece : Piece)
    (src : Position) (l : List (Nat × Nat))
    (hl : ∀ x ∈ l, x.1 < 8 ∧ x.2 < 8) :
    ∃ v, hvmInner b color piece src l = some v := by
  induction l with
  | nil => exact ⟨false, rfl⟩
  | cons hd rest ih =>
    obtain ⟨ti, tj⟩ := hd
    have hdv : (⟨(ti : Int), (tj : Int)⟩ : Position).isValid :=
      posOfNat_isValid ti tj (hl (ti, tj) (List.mem_cons_self _ _)).1
        (hl (ti, tj) (List.mem_cons_self _ _)).2
    have ih2 := ih (fun x hx => hl x (List.mem_cons_of_mem _ hx))
    simp only [hvmInner]
    obtain ⟨v, hv⟩ := pieceValid_some piece ⟨(ti : Int), (tj : Int)⟩ b hdv
    rw [hv]
    cases v
    · exact ih2
    · obtain ⟨⟨chk, b2⟩, hw⟩ :=
        Board.wouldBeInCheck_some b src ⟨(ti : Int), (tj : Int)⟩ color
      rw [hw]
      cases chk
      · exact ⟨true, rfl⟩
      · exact ih2

theorem hvmOuter_some (b : Board) (color : Color) (l : List (Nat × Nat)) :
    ∃ v, hvmOuter b color l = some v := by
  induction l with
  | nil => exact ⟨false, rfl⟩
  | cons hd rest ih =>
    obtain ⟨i, j⟩ := hd
    simp only [hvmOuter]
    cases hg : b.getPieceRC i j with
    | none => simp only [hg]; exact ih
    | some piece =>
      simp only [hg]
      split
      · obtain ⟨v, hv⟩ :=
          hvmInner_some b color piece ⟨(i : Int), (j : Int)⟩ allSquaresRM
            allSquaresRM_bound
        rw [hv]
        cases v
        · exact ih
        · exact ⟨true, rfl⟩
      · exact ih

theorem hasValidMoves?_some (b : Board) (color : Color) :
    ∃ v, hasValidMoves? b color = some v :=
  hvmOuter_some b color allSquaresRM

/-! ### GameState bookkeeping lemmas -/

/-- The player record of a given color. -/
def GameState.playerOf (g : GameState) (c : Color) : Player :=
  if c = Color.white then g.whitePlayer else g.blackPlayer

theorem setCurrentInCheck_board (g : GameState) (v : Bool) :
    (g.setCurrentInCheck v).board = g.board := by
  unfold GameState.setCurrentInCheck; split <;> rfl

theorem setCurrentInCheck_currentIsWhite (g : GameState) (v : Bool) :
    (g.setCurrentInCheck v).currentIsWhite = g.currentIsWhite := by
  unfold GameState.setCurrentInCheck; split <;> rfl

theorem setCurrentInCheck_gameOver (g : GameState) (v : Bool) :
    (g.setCurrentInCheck v).gameOver = g.gameOver := by
  unfold GameState.setCurrentInCheck; split <;> rfl

theorem setCurrentInCheck_winner (g : GameState) (v : Bool) :
    (g.setCurrentInCheck v).winner = g.winner := by
  unfold GameState.setCurrentInCheck; split <;> rfl

theorem setCurrentInCheck_whiteName (g : GameState) (v : Bool) :
    (g.setCurrentInCheck v).whitePlayer.name = g.whitePlayer.name := by
  unfold GameState.setCurrentInCheck; split <;> rfl

theorem setCurrentInCheck_blackName (g : GameState) (v : Bool) :
    (g.setCurrentInCheck v).blackPlayer.name = g.blackPlayer.name := by
  unfold GameState.setCurrentInCheck; split <;> rfl

theorem setCurrentInCheck_whiteCaptured (g : GameState) (v : Bool) :
    (g.setCurrentInCheck v).whitePlayer.capturedPieceValue =
      g.whitePlayer.capturedPieceValue := by
  unfold GameState.setCurrentInCheck; split <;> rfl

theorem setCurrentInCheck_blackCaptured (g : GameState) (v : Bool) :
    (g.setCurrentInCheck v).blackPlayer.capturedPieceValue =
      g.blackPlayer.capturedPieceValue := by
  unfold GameState.setCurrentInCheck; split <;> rfl

theorem addCaptured_board (g : GameState) (v : Int) :
    (g.addCapturedToCurrent v).board = g.board := by
  unfold GameState.addCapturedToCurrent; split <;> rfl

theorem addCaptured_currentIsWhite (g : GameState) (v : Int) :
    (g.addCapturedToCurrent v).currentIsWhite = g.currentIsWhite := by
  unfold GameState.addCapturedToCurrent; split <;> rfl

theorem addCaptured_gameOver (g : GameState) (v : Int) :
    (g.addCapturedToCurrent v).gameOver = g.gameOver := by
  unfold GameState.addCapturedToCurrent; split <;> rfl

theorem addCaptured_winner (g : GameState) (v : Int) :
    (g.addCapturedToCurrent v).winner = g.winner := by
  unfold GameState.addCapturedToCurrent; split <;> rfl

theorem addCaptured_playerOf_current (g : GameState) (v : Int) :
    ((g.addCapturedToCurrent v).playerOf g.currentColor).capturedPieceValue =
      (g.playerOf g.currentColor).capturedPieceValue + v := by
  unfold GameState.addCapturedToCurrent GameState.playerOf GameState.currentColor
  by_cases hw : g.currentIsWhite <;> simp [hw]

theorem playerOf_addCaptured (g : GameState) (v : Int) (c : Color) :
    ((g.addCapturedToCurrent v).playerOf c).capturedPieceValue =
      (g.playerOf c).capturedPieceValue +
        (if c = g.currentColor then v else 0) := by
  unfold GameState.addCapturedToCurrent GameState.playerOf GameState.currentColor
  by_cases hw : g.currentIsWhite <;> cases c <;> simp [hw]

theorem switchPlayer_board (g : GameState) : g.switchPlayer.board = g.board := rfl

theorem switchPlayer_gameOver (g : GameState) :
    g.switchPlayer.gameOver = g.gameOver := rfl

theorem switchPlayer_winner (g : GameState) :
    g.switchPlayer.winner = g.winner := rfl

theorem switchPlayer_currentIsWhite (g : GameState) :
    g.switchPlayer.currentIsWhite = ! g.currentIsWhite := rfl

theorem switchPlayer_playerOf (g : GameState) (c : Color) :
    g.switchPlayer.playerOf c = g.playerOf c := by
  unfold GameState.switchPlayer GameState.playerOf
  split <;> rfl

/-! ### En-passant state preservation by the board operations -/

theorem promotePawn_epAvailable (pos : Position) (ch : Char) (b : Board) :
    (SpecialMoves.promotePawn pos ch b).enPassantAvailable =
      b.enPassantAvailable := by
  unfold SpecialMoves.promotePawn
  split
  · rfl
  · split
    · rfl
    · simp [Board.removePiece_snd, Board.setPiece_enPassantAvailable]

theorem promotePawn_epTarget (pos : Position) (ch : Char) (b : Board) :
    (SpecialMoves.promotePawn pos ch b).enPassantTarget = b.enPassantTarget := by
  unfold SpecialMoves.promotePawn
  split
  · rfl
  · split
    · rfl
    · simp [Board.removePiece_snd, Board.setPiece_enPassantTarget]

theorem performEnPassant?_ep (src dst : Position) (b b' : Board)
    (h : SpecialMoves.performEnPassant? src dst b = some b') :
    b'.enPassantAvailable = b.enPassantAvailable ∧
      b'.enPassantTarget = b.enPassantTarget := by
  unfold SpecialMoves.performEnPassant? at h
  rcases hp : (b.removePiece src).1 with _ | pawn
  · simp only [hp] at h
    exact Option.noConfusion h
  · simp only [hp, Option.some.injEq] at h
    subst h
    simp [Board.setPiece_enPassantAvailable, Board.setPiece_enPassantTarget,
      Board.removePiece_snd]

/-- Full characterization of `movePiece`: it fails (without touching the
board) on invalid coordinates or an empty source; on `src = dst` with an
occupied source it DESTROYS the piece (the "capture" removes it, then there
is nothing left to move) and fails; otherwise it succeeds, discarding any
occupant of `dst` and relocating the source piece with `pos := dst` and
`hasMoved := true`. -/
theorem Board.movePiece_eq (b : Board) (src dst : Position) :
    b.movePiece src dst =
      if ¬ src.isValid ∨ ¬ dst.isValid then (false, b)
      else if b.isEmpty src then (false, b)
      else if src = dst then (false, b.setPiece dst none)
      else
        match b.getPiece src with
        | some p =>
          (true, ((b.setPiece dst none).setPiece src none).setPiece dst
            (some { p with pos := dst, hasMoved := true }))
        | none => (false, b) := by
  unfold movePiece
  split
  · rfl
  rename_i hval
  split
  · rfl
  rename_i hemp
  push_neg at hval
  obtain ⟨h1, h2⟩ := hval
  obtain ⟨p, hp⟩ := Board.getPiece_isSome_of_not_isEmpty b src h1 hemp
  simp only [Board.removePiece_fst, Board.removePiece_snd]
  by_cases hsd : src = dst
  · rw [if_pos hsd]
    subst hsd
    rw [if_pos (by simpa using hemp)]
    rw [Board.getPiece_setPiece_same _ _ _ h1]
    simp only []
    refine congrArg (Prod.mk false) ?_
    refine Board.ext_getPiece _ _ ?_ ?_ ?_
    · intro q hq
      by_cases hqs : q = src
      · subst hqs
        rw [Board.getPiece_setPiece_same _ _ _ hq,
          Board.getPiece_setPiece_same _ _ _ hq]
      · rw [Board.getPiece_setPiece_other _ _ _ _ hqs,
          Board.getPiece_setPiece_other _ _ _ _ hqs]
    · simp only [Board.setPiece_enPassantTarget]
    · simp only [Board.setPiece_enPassantAvailable]
  · rw [if_neg hsd]
    simp only [hp]
    by_cases hed : ¬ b.isEmpty dst = true
    · rw [if_pos hed]
      rw [Board.getPiece_setPiece_other _ _ _ _ hsd]
      simp only [hp]
    · rw [if_neg hed]
      simp only [hp]
      refine congrArg (Prod.mk true) ?_
      refine Board.ext_getPiece _ _ ?_ ?_ ?_
      · intro q hq
        by_cases hqd : q = dst
        · subst hqd
          rw [Board.getPiece_setPiece_same _ _ _ hq,
            Board.getPiece_setPiece_same _ _ _ hq]
        · rw [Board.getPiece_setPiece_other _ _ _ _ hqd,
            Board.getPiece_setPiece_other _ _ _ _ hqd]
          by_cases hqs : q = src
          · subst hqs
            rw [Board.getPiece_setPiece_same _ _ _ hq,
              Board.getPiece_setPiece_same _ _ _ hq]
          · rw [Board.getPiece_setPiece_other _ _ _ _ hqs,
              Board.getPiece_setPiece_other _ _ _ _ hqs,
              Board.getPiece_setPiece_other _ _ _ _ hqd]
      · simp only [Board.setPiece_enPassantTarget]
      · simp only [Board.setPiece_enPassantAvailable]

theorem movePiece_ep (b : Board) (src dst : Position) :
    (b.movePiece src dst).2.enPassantAvailable = b.enPassantAvailable ∧
      (b.movePiece src dst).2.enPassantTarget = b.enPassantTarget := by
  rw [Board.movePiece_eq]
  split
  · exact ⟨rfl, rfl⟩
  split
  · exact ⟨rfl, rfl⟩
  split
  · simp [Board.setPiece_enPassantAvailable, Board.setPiece_enPassantTarget]
  · split
    · simp [Board.setPiece_enPassantAvailable, Board.setPiece_enPassantTarget]
    · exact ⟨rfl, rfl⟩

/-! ### `checkGameStatus`: inversion and the terminal-state property -/

theorem setCurrentInCheck_playerOf_captured (g : GameState) (v : Bool)
    (c : Color) :
    ((g.setCurrentInCheck v).playerOf c).capturedPieceValue =
      (g.playerOf c).capturedPieceValue := by
  unfold GameState.setCurrentInCheck GameState.playerOf
  by_cases hw : g.currentIsWhite <;> cases c <;> simp [hw]

theorem setCurrentInCheck_currentColor (g : GameState) (v : Bool) :
    (g.setCurrentInCheck v).currentColor = g.currentColor := by
  unfold GameState.currentColor
  rw [setCurrentInCheck_currentIsWhite]

/-- What `checkGameStatus` establishes about the state it returns, for a
pre-state with the game still running and no winner recorded: the game is over
exactly when the current player has no legal move, and a winner — the other
player's name — is recorded exactly when that player is also in check. -/
def TerminalPost (g' : GameState) : Prop :=
  ∃ chk legal,
    g'.board.isInCheck? g'.currentColor = some chk ∧
    hasValidMoves? g'.board g'.currentColor = some legal ∧
    g'.gameOver = (! legal) ∧
    g'.winner = (if (! legal) && chk then g'.otherPlayerName else "")

theorem checkGameStatus?_fields (g g' : GameState)
    (h : Game.checkGameStatus? g = some g') :
    g'.board = g.board ∧ g'.currentIsWhite = g.currentIsWhite ∧
      (∀ c, (g'.playerOf c).capturedPieceValue =
        (g.playerOf c).capturedPieceValue) ∧
      g'.whitePlayer.name = g.whitePlayer.name ∧
      g'.blackPlayer.name = g.blackPlayer.name := by
  unfold Game.checkGameStatus? at h
  rcases hic : g.board.isInCheck? g.currentColor with _ | inCheck
  · simp only [hic] at h
    exact Option.noConfusion h
  · simp only [hic] at h
    rcases hval : hasValidMoves? (g.setCurrentInCheck inCheck).board
        (g.setCurrentInCheck inCheck).currentColor with _ | legal
    · simp only [hval] at h
      exact Option.noConfusion h
    · simp only [hval] at h
      split at h
      · split at h <;>
        · injection h with h
          subst h
          exact ⟨setCurrentInCheck_board g inCheck,
            setCurrentInCheck_currentIsWhite g inCheck,
            fun c => setCurrentInCheck_playerOf_captured g inCheck c,
            setCurrentInCheck_whiteName g inCheck,
            setCurrentInCheck_blackName g inCheck⟩
      · injection h with h
        subst h
        exact ⟨setCurrentInCheck_board g inCheck,
          setCurrentInCheck_currentIsWhite g inCheck,
          fun c => setCurrentInCheck_playerOf_captured g inCheck c,
          setCurrentInCheck_whiteName g inCheck,
          setCurrentInCheck_blackName g inCheck⟩

theorem checkGameStatus?_terminal (g g' : GameState)
    (h : Game.checkGameStatus? g = some g')
    (hover : g.gameOver = false) (hwin : g.winner = "") : TerminalPost g' := by
  unfold Game.checkGameStatus? at h
  rcases hic : g.board.isInCheck? g.currentColor with _ | inCheck
  · simp only [hic] at h
    exact Option.noConfusion h
  · simp only [hic] at h
    rcases hval : hasValidMoves? (g.setCurrentInCheck inCheck).board
        (g.setCurrentInCheck inCheck).currentColor with _ | legal
    · simp only [hval] at h
      exact Option.noConfusion h
    · have hval2 : hasValidMoves? g.board g.currentColor = some legal := by
        rw [setCurrentInCheck_board, setCurrentInCheck_currentColor] at hval
        exact hval
      simp only [hval] at h
      split at h
      · rename_i hleg
        have hlf : legal = false := by
          cases legal
          · rfl
          · exact absurd rfl hleg
        subst hlf
        split at h
        · rename_i hchk
          have hct : inCheck = true := hchk
          subst hct
          injection h with h
          refine ⟨true, false, ?_, ?_, ?_, ?_⟩
          · rw [← h]
            show (g.setCurrentInCheck true).board.isInCheck?
              (g.setCurrentInCheck true).currentColor = some true
            rw [setCurrentInCheck_board, setCurrentInCheck_currentColor]
            exact hic
          · rw [← h]
            show hasValidMoves? (g.setCurrentInCheck true).board
              (g.setCurrentInCheck true).currentColor = some false
            rw [setCurrentInCheck_board, setCurrentInCheck_currentColor]
            exact hval2
          · rw [← h]
            rfl
          · rw [← h]
            rfl
        · rename_i hchk
          have hcf : inCheck = false := by
            cases inCheck
            · rfl
            · exact absurd rfl hchk
          subst hcf
          injection h with h
          refine ⟨false, false, ?_, ?_, ?_, ?_⟩
          · rw [← h]
            show (g.setCurrentInCheck false).board.isInCheck?
              (g.setCurrentInCheck false).currentColor = some false
            rw [setCurrentInCheck_board, setCurrentInCheck_currentColor]
            exact hic
          · rw [← h]
            show hasValidMoves? (g.setCurrentInCheck false).board
              (g.setCurrentInCheck false).currentColor = some false
            rw [setCurrentInCheck_board, setCurrentInCheck_currentColor]
            exact hval2
          · rw [← h]
            rfl
          · rw [← h]
            show (g.setCurrentInCheck false).winner = _
            rw [setCurrentInCheck_winner, hwin]
            rfl
      · rename_i hleg
        have hlt : legal = true := by
          cases legal
          · exact absurd (by simp) hleg
          · rfl
        subst hlt
        injection h with h
        refine ⟨inCheck, true, ?_, ?_, ?_, ?_⟩
        · rw [← h]
          show (g.setCurrentInCheck inCheck).board.isInCheck?
            (g.setCurrentInCheck inCheck).currentColor = some inCheck
          rw [setCurrentInCheck_board, setCurrentInCheck_currentColor]
          exact hic
        · rw [← h]
          show hasValidMoves? (g.setCurrentInCheck inCheck).board
            (g.setCurrentInCheck inCheck).currentColor = some true
          rw [setCurrentInCheck_board, setCurrentInCheck_currentColor]
          exact hval2
        · rw [← h]
          show (g.setCurrentInCheck inCheck).gameOver = _
          rw [setCurrentInCheck_gameOver, hover]
          rfl
        · rw [← h]
          show (g.setCurrentInCheck inCheck).winner = _
          rw [setCurrentInCheck_winner, hwin]
          simp

/-! ### Inversion lemmas for the `makeMove` pipeline -/

theorem epStep_nonboard (g : GameState) (fromPos toPos : Position) (d : Bool) :
    (Game.epStep g fromPos toPos d).gameOver = g.gameOver ∧
      (Game.epStep g fromPos toPos d).winner = g.winner ∧
      (Game.epStep g fromPos toPos d).currentIsWhite = g.currentIsWhite ∧
      (Game.epStep g fromPos toPos d).whitePlayer = g.whitePlayer ∧
      (Game.epStep g fromPos toPos d).blackPlayer = g.blackPlayer := by
  unfold Game.epStep
  split <;> exact ⟨rfl, rfl, rfl, rfl, rfl⟩

theorem promoStep_nonboard (g : GameState) (toPos : Position) (pc : Char) :
    (Game.promoStep g toPos pc).gameOver = g.gameOver ∧
      (Game.promoStep g toPos pc).winner = g.winner ∧
      (Game.promoStep g toPos pc).currentIsWhite = g.currentIsWhite ∧
      (Game.promoStep g toPos pc).whitePlayer = g.whitePlayer ∧
      (Game.promoStep g toPos pc).blackPlayer = g.blackPlayer := by
  unfold Game.promoStep
  split
  · split
    · exact ⟨rfl, rfl, rfl, rfl, rfl⟩
    · exact ⟨rfl, rfl, rfl, rfl, rfl⟩
  · exact ⟨rfl, rfl, rfl, rfl, rfl⟩

theorem promoStep_ep (g : GameState) (toPos : Position) (pc : Char) :
    (Game.promoStep g toPos pc).board.enPassantAvailable =
        g.board.enPassantAvailable ∧
      (Game.promoStep g toPos pc).board.enPassantTarget =
        g.board.enPassantTarget := by
  unfold Game.promoStep
  split
  · split
    · exact ⟨promotePawn_epAvailable _ _ _, promotePawn_epTarget _ _ _⟩
    · exact ⟨rfl, rfl⟩
  · exact ⟨rfl, rfl⟩

theorem epStep_ep (g : GameState) (fromPos toPos : Position) (d : Bool) :
    (Game.epStep g fromPos toPos d).board.enPassantAvailable =
        (if d then true else g.board.enPassantAvailable) ∧
      (d = true →
        (Game.epStep g fromPos toPos d).board.enPassantTarget =
          ⟨(fromPos.row + toPos.row) / 2, fromPos.col⟩) := by
  unfold Game.epStep
  cases d
  · exact ⟨rfl, fun hx => Bool.noConfusion hx⟩
  · exact ⟨rfl, fun _ => rfl⟩

theorem captureStep_nonplayers (g : GameState) (toPos : Position) :
    (Game.captureStep g toPos).board = g.board ∧
      (Game.captureStep g toPos).gameOver = g.gameOver ∧
      (Game.captureStep g toPos).winner = g.winner ∧
      (Game.captureStep g toPos).currentIsWhite = g.currentIsWhite := by
  unfold Game.captureStep
  split
  · split
    · exact ⟨addCaptured_board g _, addCaptured_gameOver g _,
        addCaptured_winner g _, addCaptured_currentIsWhite g _⟩
    · exact ⟨rfl, rfl, rfl, rfl⟩
  · exact ⟨rfl, rfl, rfl, rfl⟩

theorem captureStep_captured (g : GameState) (toPos : Position) (c : Color) :
    ((Game.captureStep g toPos).playerOf c).capturedPieceValue =
      (g.playerOf c).capturedPieceValue +
        (match g.board.getPiece toPos with
         | some captured =>
           if ¬ (captured.color = g.currentColor) ∧ c = g.currentColor then
             pieceValue captured.kind
           else 0
         | none => 0) := by
  unfold Game.captureStep
  rcases hq : g.board.getPiece toPos with _ | captured
  · simp
  · simp only []
    split
    · rename_i hcol
      rw [playerOf_addCaptured]
      by_cases hc : c = g.currentColor
      · rw [if_pos hc, if_pos ⟨hcol, hc⟩]
      · rw [if_neg hc, if_neg (fun hx => hc hx.2)]
    · rename_i hcol
      rw [if_neg (fun hx => hcol hx.1)]
      simp

theorem Game.moveTail_ok_inv (g : GameState) (fromPos toPos : Position)
    (isDouble : Bool) (pc : Char) (g' : GameState)
    (h : Game.moveTail g fromPos toPos isDouble pc = some (MoveResult.ok g')) :
    Game.checkGameStatus?
      ((Game.promoStep (Game.epStep g fromPos toPos isDouble) toPos
        pc).switchPlayer) = some g' := by
  unfold Game.moveTail at h
  rcases hc : Game.checkGameStatus?
      ((Game.promoStep (Game.epStep g fromPos toPos isDouble) toPos
        pc).switchPlayer) with _ | g3
  · simp only [hc] at h
    exact Option.noConfusion h
  · simp only [hc, Option.some.injEq, MoveResult.ok.injEq] at h
    rw [h]

theorem Game.execMove_ok_inv (g : GameState) (fromPos toPos : Position)
    (piece : Piece) (pc : Char) (g' : GameState)
    (h : Game.execMove g fromPos toPos piece pc = some (MoveResult.ok g')) :
    ∃ b3,
      Game.moveTail { Game.captureStep g toPos with board := b3 } fromPos toPos
        (decide (piece.kind = PieceKind.pawn ∧
          (toPos.row - fromPos.row).natAbs = 2)) pc = some (MoveResult.ok g') ∧
      b3.enPassantAvailable = false := by
  simp only [Game.execMove] at h
  split at h
  · rcases hpe : SpecialMoves.performEnPassant? fromPos toPos
        (Game.captureStep g toPos).board.clearEnPassant with _ | b3
    · simp only [hpe] at h
      exact Option.noConfusion h
    · simp only [hpe] at h
      refine ⟨b3, h, ?_⟩
      have := performEnPassant?_ep fromPos toPos
        (Game.captureStep g toPos).board.clearEnPassant b3 hpe
      rw [this.1]
      rfl
  · rcases hmv : (Game.captureStep g toPos).board.clearEnPassant.movePiece
        fromPos toPos with ⟨mvOk, b3⟩
    simp only [hmv] at h
    cases mvOk
    · simp only [] at h
      exact absurd h (by simp)
    · simp only [] at h
      refine ⟨b3, h, ?_⟩
      have := movePiece_ep (Game.captureStep g toPos).board.clearEnPassant
        fromPos toPos
      rw [hmv] at this
      rw [this.1]
      rfl

theorem Game.makeMove?_ok_inv (g : GameState) (fs ts : List Char) (pc : Char)
    (g' : GameState) (h : Game.makeMove? g fs ts pc = some (MoveResult.ok g')) :
    ∃ piece b1,
      (Game.parsePosition fs).isValid ∧ (Game.parsePosition ts).isValid ∧
      g.board.getPiece (Game.parsePosition fs) = some piece ∧
      piece.color = g.currentColor ∧
      piece.isValidMove? (Game.parsePosition ts) g.board = some true ∧
      g.board.wouldBeInCheck? (Game.parsePosition fs) (Game.parsePosition ts)
        g.currentColor = some (false, b1) ∧
      Game.execMove { g with board := b1 } (Game.parsePosition fs)
        (Game.parsePosition ts) piece pc = some (MoveResult.ok g') := by
  simp only [Game.makeMove?] at h
  split at h
  · injection h with h
    exact MoveResult.noConfusion h
  rename_i hvalpos
  push_neg at hvalpos
  rcases hfp : g.board.getPiece (Game.parsePosition fs) with _ | piece
  · simp only [hfp] at h
    injection h with h
    exact MoveResult.noConfusion h
  · simp only [hfp] at h
    split at h
    · injection h with h
      exact MoveResult.noConfusion h
    rename_i hcol
    rcases hvm : piece.isValidMove? (Game.parsePosition ts) g.board
        with _ | v
    · simp only [hvm] at h
      exact Option.noConfusion h
    · simp only [hvm] at h
      cases v
      · simp only [] at h
        injection h with h
        exact MoveResult.noConfusion h
      · rcases hw : g.board.wouldBeInCheck? (Game.parsePosition fs)
            (Game.parsePosition ts) g.currentColor with _ | r
        · simp only [hw] at h
          exact Option.noConfusion h
        · obtain ⟨chk, b1⟩ := r
          simp only [hw] at h
          cases chk
          · exact ⟨piece, b1, hvalpos.1, hvalpos.2, rfl,
              not_not.mp hcol, hvm, rfl, h⟩
          · simp only [] at h
            injection h with h
            exact MoveResult.noConfusion h

theorem Game.handleCastling?_ok_inv (g : GameState) (cmd : String)
    (g' : GameState) (h : Game.handleCastling? g cmd = some (MoveResult.ok g')) :
    ∃ b2,
      SpecialMoves.performCastling? g.currentColor (decide (cmd = "kingside"))
        g.board = some b2 ∧
      Game.checkGameStatus?
        ({ g with board := b2.clearEnPassant }).switchPlayer = some g' := by
  unfold Game.handleCastling? at h
  rcases hcan : (if (cmd = "kingside" : Bool) then
      SpecialMoves.canCastleKingSide? g.currentColor g.board
    else SpecialMoves.canCastleQueenSide? g.currentColor g.board) with _ | can
  · simp only [hcan] at h
    exact Option.noConfusion h
  · simp only [hcan] at h
    cases can
    · simp only [] at h
      injection h with h
      exact MoveResult.noConfusion h
    · rcases hpc : SpecialMoves.performCastling? g.currentColor
          (cmd = "kingside" : Bool) g.board with _ | b2
      · simp only [hpc] at h
        exact Option.noConfusion h
      · simp only [hpc] at h
        rcases hc : Game.checkGameStatus?
            ({ g with board := b2.clearEnPassant }).switchPlayer with _ | g3
        · simp only [hc] at h
          exact Option.noConfusion h
        · simp only [hc, Option.some.injEq, MoveResult.ok.injEq] at h
          exact ⟨b2, rfl, hc.trans (congrArg some h)⟩

/-! ### C1 — pawn attack detection on empty diagonal squares -/

def c1Pawn : Piece := ⟨Color.white, ⟨4, 4⟩, true, PieceKind.pawn⟩

/-- A board holding only a white pawn on (4,4) (e4-area), no en passant. -/
def c1Board : Board :=
  { squares := fun i j => if i.val = 4 ∧ j.val = 4 then some c1Pawn else none
    enPassantTarget := ⟨0, 0⟩
    enPassantAvailable := false }

/-- **C1**: the claim says the pawn on (4,4) threatens the empty diagonal
square (3,5), i.e. `isUnderAttack((3,5), WHITE)` should be `true`.  The code
reuses `Pawn::isValidMove` verbatim for attack detection, and the pawn's
diagonal branch demands an occupied square or the en-passant target, so
`isUnderAttack` answers `false` on this empty, non-en-passant diagonal
square. -/
theorem c1_pawn_attack_empty_diagonal_eval :
    c1Board.isUnderAttack? ⟨3, 5⟩ Color.white = some false ∧
    c1Board.getPiece ⟨4, 4⟩ = some c1Pawn ∧
    c1Pawn.kind = PieceKind.pawn ∧ c1Pawn.color = Color.white ∧
    c1Board.isEmpty ⟨3, 5⟩ = true ∧
    c1Board.enPassantAvailable = false := by decide

/-! ### C5 — fail-closed behavior on invalid input -/

def c5Rook : Piece := ⟨Color.white, ⟨0, 0⟩, false, PieceKind.rook⟩

/-- A board holding only a white rook on (0,0); in particular no king. -/
def c5Board : Board :=
  { squares := fun i j => if i.val = 0 ∧ j.val = 0 then some c5Rook else none
    enPassantTarget := ⟨0, 0⟩
    enPassantAvailable := false }

/-- **C5**: `getPiece` on an invalid coordinate yields no piece and
`wouldBeInCheck` yields `true` (both fail closed, as claimed); `isInCheck`
with no king on the board yields `false` (as claimed); but
`Rook::isValidMove` with the out-of-range destination (0,-1) dereferences a
null pointer — `isEmpty(Position)` reports the invalid square as occupied
while `getPiece` returns null — modelled by `none`, instead of returning
`false` as the claim requires. -/
theorem c5_fail_closed_eval :
    c5Board.getPiece ⟨0, -1⟩ = none ∧
    c5Board.wouldBeInCheck? ⟨9, 0⟩ ⟨0, 0⟩ Color.white = some (true, c5Board) ∧
    c5Board.isInCheck? Color.white = some false ∧
    c5Rook.isValidMove? ⟨0, -1⟩ c5Board = none := by decide

/-! ### C2 — `wouldBeInCheck` restores the board -/

/-- **C2**: for valid coordinates and a piece at the source whose stored
position matches its square (the data-model invariant of §3, maintained by
every operation per C10), `wouldBeInCheck` hands back exactly the board it
started from — every square, every piece field, and the en-passant state —
whatever the check answer is.  (The stored-position hypothesis is needed:
the rollback re-derives the mover's position from `from` itself.) -/
theorem c2_wouldBeInCheck_roundTrip (b : Board) (src dst : Position)
    (color : Color) (p : Piece) (h1 : src.isValid) (h2 : dst.isValid)
    (hp : b.getPiece src = some p) (hpos : p.pos = src) :
    ∃ r, b.wouldBeInCheck? src dst color = some (r, b) :=
  Board.wouldBeInCheck_restores b src dst color p h1 h2 hp hpos

def c2King : Piece := ⟨Color.white, ⟨7, 4⟩, false, PieceKind.king⟩

def c2Board : Board :=
  { squares := fun i j => if i.val = 7 ∧ j.val = 4 then some c2King else none
    enPassantTarget := ⟨0, 0⟩
    enPassantAvailable := false }

theorem c2_wouldBeInCheck_roundTrip_witness :
    ∃ r, c2Board.wouldBeInCheck? ⟨7, 4⟩ ⟨6, 4⟩ Color.white =
      some (r, c2Board) :=
  c2_wouldBeInCheck_roundTrip c2Board ⟨7, 4⟩ ⟨6, 4⟩ Color.white c2King
    (by decide) (by decide) (by decide) (by decide)

/-! ### C8 — `movePiece` return value and effects -/

/-- **C8 (amended)**: `movePiece` returns `false` exactly on an invalid
coordinate, an empty source, or `from = to` with an occupied source — in that
last case the occupant is first "captured" (discarded) and nothing is left to
move, leaving the square empty.  In every other case it returns `true`,
discards any occupant of `to`, and places the source piece at `to` with
stored position `to` and `hasMoved` set. -/
theorem c8_movePiece_spec (b : Board) (src dst : Position) :
    b.movePiece src dst =
      if ¬ src.isValid ∨ ¬ dst.isValid then (false, b)
      else if b.isEmpty src then (false, b)
      else if src = dst then (false, b.setPiece dst none)
      else
        match b.getPiece src with
        | some p =>
          (true, ((b.setPiece dst none).setPiece src none).setPiece dst
            (some { p with pos := dst, hasMoved := true }))
        | none => (false, b) :=
  Board.movePiece_eq b src dst

def c8Rook : Piece := ⟨Color.white, ⟨0, 0⟩, false, PieceKind.rook⟩

def c8Board : Board :=
  { squares := fun i j => if i.val = 0 ∧ j.val = 0 then some c8Rook else none
    enPassantTarget := ⟨0, 0⟩
    enPassantAvailable := false }

/-- **C8 counterexample**: with both coordinates valid and the source
occupied, the claim demands `movePiece` return `true`; but for
`from = to = (0,0)` the code removes the "captured" occupant (the piece
itself), then finds the source empty, returns `false` — and the piece is
gone. -/
theorem c8_counterexample :
    (⟨0, 0⟩ : Position).isValid ∧
    c8Board.isEmpty ⟨0, 0⟩ = false ∧
    (c8Board.movePiece ⟨0, 0⟩ ⟨0, 0⟩).1 = false ∧
    (c8Board.movePiece ⟨0, 0⟩ ⟨0, 0⟩).2.getPiece ⟨0, 0⟩ = none := by decide

/-! ### Zero-displacement and same-color rejection, per piece kind -/

theorem pawnValid_self (p : Piece) (b : Board) :
    Pawn.isValidMove? p p.pos b = some false := by
  simp only [Pawn.isValidMove?]
  rw [if_neg, if_neg, if_neg]
  · rintro ⟨h1, h2⟩
    omega
  · rintro ⟨h1, h2, h3, h4, h5⟩
    revert h3
    split <;> omega
  · rintro ⟨h1, h2, h3⟩
    revert h2
    split <;> omega

theorem rookValid_self (p : Piece) (b : Board) :
    Rook.isValidMove? p p.pos b = some false := by
  simp only [Rook.isValidMove?]
  rw [if_pos trivial]

theorem knightValid_self (p : Piece) (b : Board) :
    Knight.isValidMove? p p.pos b = some false := by
  simp only [Knight.isValidMove?]
  rw [if_pos]
  rintro (⟨h1, h2⟩ | ⟨h1, h2⟩) <;> omega

theorem bishopValid_self (p : Piece) (b : Board) :
    Bishop.isValidMove? p p.pos b = some false := by
  simp only [Bishop.isValidMove?]
  rw [if_pos trivial]

theorem queenValid_self (p : Piece) (b : Board) :
    Queen.isValidMove? p p.pos b = some false := by
  simp only [Queen.isValidMove?]
  rw [if_pos trivial]

theorem kingValid_self (p : Piece) (b : Board) :
    King.isValidMove? p p.pos b = some false := by
  simp only [King.isValidMove?]
  rw [if_neg, if_pos]
  · exact ⟨by omega, by omega⟩
  · rintro (h1 | h1) <;> omega

/-- Zero displacement is pattern-illegal for every piece. -/
theorem pieceValid_self (p : Piece) (b : Board) :
    p.isValidMove? p.pos b = some false := by
  unfold Piece.isValidMove?
  cases p.kind
  · exact pawnValid_self p b
  · exact rookValid_self p b
  · exact knightValid_self p b
  · exact bishopValid_self p b
  · exact queenValid_self p b
  · exact kingValid_self p b

theorem rookValid_same_color (p : Piece) (dst : Position) (b : Board)
    (q : Piece) (hq : b.getPiece dst = some q) (hcol : q.color = p.color) :
    Rook.isValidMove? p dst b = some false := by
  have hv := Board.valid_of_getPiece_some b dst q hq
  have hemp := Board.isEmpty_eq_false b dst q hq hv
  simp only [Rook.isValidMove?, hq, hemp]
  split_ifs <;> simp_all

theorem knightValid_same_color (p : Piece) (dst : Position) (b : Board)
    (q : Piece) (hq : b.getPiece dst = some q) (hcol : q.color = p.color) :
    Knight.isValidMove? p dst b = some false := by
  have hv := Board.valid_of_getPiece_some b dst q hq
  have hemp := Board.isEmpty_eq_false b dst q hq hv
  simp only [Knight.isValidMove?, hq, hemp]
  split_ifs <;> simp_all

theorem bishopValid_same_color (p : Piece) (dst : Position) (b : Board)
    (q : Piece) (hq : b.getPiece dst = some q) (hcol : q.color = p.color) :
    Bishop.isValidMove? p dst b = some false := by
  have hv := Board.valid_of_getPiece_some b dst q hq
  have hemp := Board.isEmpty_eq_false b dst q hq hv
  simp only [Bishop.isValidMove?, hq, hemp]
  split_ifs <;> simp_all

theorem queenValid_same_color (p : Piece) (dst : Position) (b : Board)
    (q : Piece) (hq : b.getPiece dst = some q) (hcol : q.color = p.color) :
    Queen.isValidMove? p dst b = some false := by
  have hv := Board.valid_of_getPiece_some b dst q hq
  have hemp := Board.isEmpty_eq_false b dst q hq hv
  simp only [Queen.isValidMove?, hq, hemp]
  split_ifs <;> simp_all

theorem kingValid_same_color (p : Piece) (dst : Position) (b : Board)
    (q : Piece) (hq : b.getPiece dst = some q) (hcol : q.color = p.color) :
    King.isValidMove? p dst b = some false := by
  have hv := Board.valid_of_getPiece_some b dst q hq
  have hemp := Board.isEmpty_eq_false b dst q hq hv
  simp only [King.isValidMove?, hq, hemp]
  split_ifs <;> simp_all

theorem pawnValid_same_color (p : Piece) (dst : Position) (b : Board)
    (q : Piece) (hq : b.getPiece dst = some q) (hcol : q.color = p.color)
    (hnep : ¬ (b.enPassantAvailable = true ∧ dst = b.enPassantTarget)) :
    Pawn.isValidMove? p dst b = some false := by
  have hv := Board.valid_of_getPiece_some b dst q hq
  have hemp := Board.isEmpty_eq_false b dst q hq hv
  simp only [Pawn.isValidMove?, pawnEpCheck, hq, hemp]
  split_ifs <;> simp_all

/-- A same-color occupant makes the move pattern-illegal — except through the
pawn's en-passant branch, which never looks at the occupant. -/
theorem pieceValid_same_color (p : Piece) (dst : Position) (b : Board)
    (q : Piece) (hq : b.getPiece dst = some q) (hcol : q.color = p.color)
    (hnep : ¬ (p.kind = PieceKind.pawn ∧ b.enPassantAvailable = true ∧
      dst = b.enPassantTarget)) :
    p.isValidMove? dst b = some false := by
  unfold Piece.isValidMove?
  cases hk : p.kind
  · exact pawnValid_same_color p dst b q hq hcol
      (fun hx => hnep ⟨hk, hx.1, hx.2⟩)
  · exact rookValid_same_color p dst b q hq hcol
  · exact knightValid_same_color p dst b q hq hcol
  · exact bishopValid_same_color p dst b q hq hcol
  · exact queenValid_same_color p dst b q hq hcol
  · exact kingValid_same_color p dst b q hq hcol

/-! ### C4 — castling legality -/

/-- The home row used by all three `SpecialMoves` castling routines:
`(color == WHITE) ? 7 : 0`. -/
def castleRow (color : Color) : Int :=
  if color = Color.white then 7 else 0

/-- The `canCastle(color, side, board)` entry point of the spec: dispatch on
the side, exactly as `Game::handleCastling` does. -/
def SpecialMoves.canCastle? (color : Color) (kingSide : Bool) (b : Board) :
    Option Bool :=
  if kingSide then SpecialMoves.canCastleKingSide? color b
  else SpecialMoves.canCastleQueenSide? color b

/-- The castling precondition as the spec words it (refinement target, not a
translation of the source): a king *of the castling color* on its home
square, the relevant rook *of that color* on its home square, neither ever
moved, the squares strictly between them empty, and none of the squares the
king stands on or transits through (including its destination) attacked by
the opponent.  The rook's queenside transit square (file b) is required empty
but not attack-free. -/
def specCanCastle (color : Color) (kingSide : Bool) (b : Board) : Prop :=
  let row := castleRow color
  let rookCol : Int := if kingSide then 7 else 0
  let between : List Int := if kingSide then [5, 6] else [1, 2, 3]
  let kingPath : List Int := if kingSide then [4, 5, 6] else [4, 3, 2]
  (∃ king, b.getPiece ⟨row, 4⟩ = some king ∧ king.color = color ∧
    king.kind = PieceKind.king ∧ king.hasMoved = false) ∧
  (∃ rook, b.getPiece ⟨row, rookCol⟩ = some rook ∧ rook.color = color ∧
    rook.kind = PieceKind.rook ∧ rook.hasMoved = false) ∧
  (∀ cc ∈ between, b.isEmpty ⟨row, cc⟩ = true) ∧
  (∀ cc ∈ kingPath, b.isUnderAttack? ⟨row, cc⟩ (enemyOf color) = some false)

theorem Board.getPieceRC_eq_getPiece (b : Board) (r c : Int) :
    b.getPieceRC r c = b.getPiece ⟨r, c⟩ := by
  by_cases h : (Position.mk r c).isValid
  · have h' : 0 ≤ r ∧ r < 8 ∧ 0 ≤ c ∧ c < 8 := h
    rw [Board.getPieceRC, Board.getPiece, dif_pos h, dif_pos h']
  · have h' : ¬ (0 ≤ r ∧ r < 8 ∧ 0 ≤ c ∧ c < 8) := h
    rw [Board.getPieceRC, Board.getPiece, dif_neg h, dif_neg h']

theorem Board.isEmptyRC_eq_isEmpty (b : Board) (r c : Int)
    (h : (Position.mk r c).isValid) : b.isEmptyRC r c = b.isEmpty ⟨r, c⟩ := by
  have h' : 0 ≤ r ∧ r < 8 ∧ 0 ≤ c ∧ c < 8 := h
  rw [Board.isEmptyRC, Board.isEmpty, if_pos h, if_pos h',
    Board.getPieceRC_eq_getPiece]

/-- If the `isUnderAttack` scan over `l` came back `false`, no `byColor`
piece it visited has a move predicate accepting `pos`. -/
theorem Board.attackScan_false_all (b : Board) (pos : Position) (c : Color)
    (l : List (Nat × Nat)) (h : b.attackScan pos c l = some false) :
    ∀ x ∈ l, ∀ p, b.getPieceRC x.1 x.2 = some p → p.color = c →
      ¬ p.isValidMove? pos b = some true := by
  induction l with
  | nil =>
    intro x hx
    exact absurd hx (List.not_mem_nil x)
  | cons hd rest ih =>
    obtain ⟨i, j⟩ := hd
    rw [Board.attackScan] at h
    intro x hx p hp hc hv
    rcases List.mem_cons.mp hx with hx1 | hx2
    · subst hx1
      have hp' : b.getPieceRC (i : Int) (j : Int) = some p := hp
      simp only [hp'] at h
      rw [if_pos hc] at h
      simp only [hv] at h
      exact Bool.noConfusion (Option.some.inj h)
    · cases hg : b.getPieceRC (i : Int) (j : Int) with
      | none =>
        simp only [hg] at h
        exact ih h x hx2 p hp hc hv
      | some q =>
        simp only [hg] at h
        by_cases hqc : q.color = c
        · rw [if_pos hqc] at h
          cases hqv : q.isValidMove? pos b with
          | none =>
            simp only [hqv] at h
            exact Option.noConfusion h
          | some v =>
            cases v
            · simp only [hqv] at h
              exact ih h x hx2 p hp hc hv
            · simp only [hqv] at h
              exact Bool.noConfusion (Option.some.inj h)
        · rw [if_neg hqc] at h
          exact ih h x hx2 p hp hc hv

theorem enemyOf_of_ne (c d : Color) (h : ¬ c = d) : c = enemyOf d := by
  cases c <;> cases d
  · exact absurd rfl h
  · rfl
  · rfl
  · exact absurd rfl h

theorem King.isValidMove?_step (p : Piece) (dst : Position) (b : Board)
    (h1 : (dst.row - p.pos.row).natAbs ≤ 1)
    (h2 : (dst.col - p.pos.col).natAbs ≤ 1)
    (h3 : ¬ (dst.row = p.pos.row ∧ dst.col = p.pos.col))
    (he : b.isEmpty dst = true) :
    King.isValidMove? p dst b = some true := by
  have hA : ¬ (1 < ((dst.row - p.pos.row).natAbs : Int) ∨
      1 < ((dst.col - p.pos.col).natAbs : Int)) := by omega
  have hB : ¬ (((dst.row - p.pos.row).natAbs : Int) = 0 ∧
      ((dst.col - p.pos.col).natAbs : Int) = 0) := by omega
  simp only [King.isValidMove?]
  rw [if_neg hA, if_neg hB, if_neg (not_not_intro he)]

theorem Rook.isValidMove?_true (p : Piece) (dst : Position) (b : Board)
    (hne : ¬ p.pos = dst) (hrow : p.pos.row = dst.row)
    (hpath : b.isPathClear p.pos dst = true) (he : b.isEmpty dst = true) :
    Rook.isValidMove? p dst b = some true := by
  simp only [Rook.isValidMove?]
  rw [if_neg hne, if_neg (fun hc => hc.1 hrow),
    if_neg (not_not_intro hpath), if_neg (not_not_intro he)]

theorem canCastleKingSide?_iff (color : Color) (b : Board)
    (hsyncK : ∀ q, b.getPiece ⟨castleRow color, 4⟩ = some q →
      q.pos = ⟨castleRow color, 4⟩)
    (hsyncR : ∀ q, b.getPiece ⟨castleRow color, 7⟩ = some q →
      q.pos = ⟨castleRow color, 7⟩) :
    SpecialMoves.canCastleKingSide? color b = some true ↔
      specCanCastle color true b := by
  have hrow : castleRow color = 7 ∨ castleRow color = 0 := by
    cases color
    · exact Or.inl rfl
    · exact Or.inr rfl
  have hfold : (if color = Color.white then (7 : Int) else 0) = castleRow color :=
    rfl
  have hv5 : (Position.mk (castleRow color) 5).isValid := by
    rcases hrow with h | h <;> rw [h] <;> decide
  have hv6 : (Position.mk (castleRow color) 6).isValid := by
    rcases hrow with h | h <;> rw [h] <;> decide
  have hcast : (((castleRow color).toNat : Int)) = castleRow color := by
    rcases hrow with h | h <;> rw [h] <;> rfl
  have hm4 : ((castleRow color).toNat, 4) ∈ allSquaresRM := by
    rcases hrow with h | h <;> rw [h] <;> decide
  have hm7 : ((castleRow color).toNat, 7) ∈ allSquaresRM := by
    rcases hrow with h | h <;> rw [h] <;> decide
  constructor
  · intro hcode
    simp only [SpecialMoves.canCastleKingSide?, hfold,
      Board.getPieceRC_eq_getPiece] at hcode
    cases hk : b.getPiece ⟨castleRow color, 4⟩ with
    | none =>
      simp only [hk] at hcode
      exact Bool.noConfusion (Option.some.inj hcode)
    | some king =>
      cases hr : b.getPiece ⟨castleRow color, 7⟩ with
      | none =>
        simp only [hk, hr] at hcode
        exact Bool.noConfusion (Option.some.inj hcode)
      | some rook =>
        simp only [hk, hr] at hcode
        by_cases h1 : (king.hasMoved = true ∨ rook.hasMoved = true)
        · rw [if_pos h1] at hcode
          exact Bool.noConfusion (Option.some.inj hcode)
        · rw [if_neg h1] at hcode
          by_cases h2 : (¬ (king.kind = PieceKind.king) ∨
            ¬ (rook.kind = PieceKind.rook))
          · rw [if_pos h2] at hcode
            exact Bool.noConfusion (Option.some.inj hcode)
          · rw [if_neg h2] at hcode
            by_cases h3 : (¬ b.isEmptyRC (castleRow color) 5 = true ∨
              ¬ b.isEmptyRC (castleRow color) 6 = true)
            · rw [if_pos h3] at hcode
              exact Bool.noConfusion (Option.some.inj hcode)
            · rw [if_neg h3] at hcode
              cases ha4 : b.isUnderAttack? ⟨castleRow color, 4⟩ (enemyOf color) with
              | none =>
                simp only [ha4] at hcode
                exact Option.noConfusion hcode
              | some v4 =>
                cases v4 with
                | true =>
                  simp only [ha4] at hcode
                  exact Bool.noConfusion (Option.some.inj hcode)
                | false =>
                simp only [ha4] at hcode
                cases ha5 : b.isUnderAttack? ⟨castleRow color, 5⟩ (enemyOf color) with
                | none =>
                  simp only [ha5] at hcode
                  exact Option.noConfusion hcode
                | some v5 =>
                  cases v5 with
                  | true =>
                    simp only [ha5] at hcode
                    exact Bool.noConfusion (Option.some.inj hcode)
                  | false =>
                  simp only [ha5] at hcode
                  cases ha6 : b.isUnderAttack? ⟨castleRow color, 6⟩ (enemyOf color) with
                  | none =>
                    simp only [ha6] at hcode
                    exact Option.noConfusion hcode
                  | some v6 =>
                    cases v6 with
                    | true =>
                      simp only [ha6] at hcode
                      exact Bool.noConfusion (Option.some.inj hcode)
                    | false =>
                    have hkm : king.hasMoved = false := by
                      cases hx : king.hasMoved
                      · rfl
                      · exact absurd (Or.inl hx) h1
                    have hrm : rook.hasMoved = false := by
                      cases hx : rook.hasMoved
                      · rfl
                      · exact absurd (Or.inr hx) h1
                    have hkk : king.kind = PieceKind.king := by
                      by_cases hx : king.kind = PieceKind.king
                      · exact hx
                      · exact absurd (Or.inl hx) h2
                    have hrk : rook.kind = PieceKind.rook := by
                      by_cases hx : rook.kind = PieceKind.rook
                      · exact hx
                      · exact absurd (Or.inr hx) h2
                    have he5 : b.isEmpty ⟨castleRow color, 5⟩ = true := by
                      rw [← Board.isEmptyRC_eq_isEmpty b _ 5 hv5]
                      by_cases hx : b.isEmptyRC (castleRow color) 5 = true
                      · exact hx
                      · exact absurd (Or.inl hx) h3
                    have he6 : b.isEmpty ⟨castleRow color, 6⟩ = true := by
                      rw [← Board.isEmptyRC_eq_isEmpty b _ 6 hv6]
                      by_cases hx : b.isEmptyRC (castleRow color) 6 = true
                      · exact hx
                      · exact absurd (Or.inr hx) h3
                    by_cases hkc : king.color = color
                    · by_cases hrc : rook.color = color
                      · refine ⟨⟨king, hk, hkc, hkk, hkm⟩,
                          ⟨rook, hr, hrc, hrk, hrm⟩, ?_, ?_⟩
                        · intro cc hcc
                          have hcc' : cc ∈ ([5, 6] : List Int) := hcc
                          fin_cases hcc'
                          · exact he5
                          · exact he6
                        · intro cc hcc
                          have hcc' : cc ∈ ([4, 5, 6] : List Int) := hcc
                          fin_cases hcc'
                          · exact ha4
                          · exact ha5
                          · exact ha6
                      · exfalso
                        have hrcE : rook.color = enemyOf color :=
                          enemyOf_of_ne _ _ hrc
                        have hrpos : rook.pos = ⟨castleRow color, 7⟩ :=
                          hsyncR rook hr
                        have hrv : rook.isValidMove? ⟨castleRow color, 6⟩ b =
                            some true := by
                          have hcore : Rook.isValidMove? rook
                              ⟨castleRow color, 6⟩ b = some true := by
                            refine Rook.isValidMove?_true rook _ b ?_ ?_ ?_ he6
                            · rw [hrpos]
                              intro hx
                              have hx2 : (7 : Int) = 6 :=
                                congrArg Position.col hx
                              exact absurd hx2 (by decide)
                            · rw [hrpos]
                            · rw [hrpos]
                              rcases hrow with h | h <;> rw [h] <;> rfl
                          simp only [Piece.isValidMove?, hrk]
                          exact hcore
                        have hgp : b.getPieceRC (((castleRow color).toNat : Nat) : Int)
                            ((7 : Nat) : Int) = some rook := by
                          rw [Board.getPieceRC_eq_getPiece, hcast]
                          exact hr
                        exact Board.attackScan_false_all b ⟨castleRow color, 6⟩
                          (enemyOf color) allSquaresRM ha6
                          ((castleRow color).toNat, 7) hm7 rook hgp hrcE hrv
                    · exfalso
                      have hkcE : king.color = enemyOf color :=
                        enemyOf_of_ne _ _ hkc
                      have hkpos : king.pos = ⟨castleRow color, 4⟩ :=
                        hsyncK king hk
                      have hkv : king.isValidMove? ⟨castleRow color, 5⟩ b =
                          some true := by
                        have hcore : King.isValidMove? king
                            ⟨castleRow color, 5⟩ b = some true := by
                          refine King.isValidMove?_step king _ b ?_ ?_ ?_ he5
                          · rw [hkpos]
                            show (castleRow color - castleRow color).natAbs ≤ 1
                            omega
                          · rw [hkpos]
                            show ((5 : Int) - 4).natAbs ≤ 1
                            decide
                          · rw [hkpos]
                            intro hx
                            have hx2 : (5 : Int) = 4 := hx.2
                            exact absurd hx2 (by decide)
                        simp only [Piece.isValidMove?, hkk]
                        exact hcore
                      have hgp : b.getPieceRC (((castleRow color).toNat : Nat) : Int)
                          ((4 : Nat) : Int) = some king := by
                        rw [Board.getPieceRC_eq_getPiece, hcast]
                        exact hk
                      exact Board.attackScan_false_all b ⟨castleRow color, 5⟩
                        (enemyOf color) allSquaresRM ha5
                        ((castleRow color).toNat, 4) hm4 king hgp hkcE hkv
  · intro hspec
    obtain ⟨king, hk, hkc, hkk, hkm⟩ :
        ∃ king, b.getPiece ⟨castleRow color, 4⟩ = some king ∧
          king.color = color ∧ king.kind = PieceKind.king ∧
          king.hasMoved = false := hspec.1
    obtain ⟨rook, hr, hrc, hrk, hrm⟩ :
        ∃ rook, b.getPiece ⟨castleRow color, 7⟩ = some rook ∧
          rook.color = color ∧ rook.kind = PieceKind.rook ∧
          rook.hasMoved = false := hspec.2.1
    have hemp : ∀ cc ∈ ([5, 6] : List Int),
        b.isEmpty ⟨castleRow color, cc⟩ = true := hspec.2.2.1
    have hatt : ∀ cc ∈ ([4, 5, 6] : List Int),
        b.isUnderAttack? ⟨castleRow color, cc⟩ (enemyOf color) = some false :=
      hspec.2.2.2
    have he5 : b.isEmptyRC (castleRow color) 5 = true := by
      rw [Board.isEmptyRC_eq_isEmpty b _ 5 hv5]
      exact hemp 5 (by decide)
    have he6 : b.isEmptyRC (castleRow color) 6 = true := by
      rw [Board.isEmptyRC_eq_isEmpty b _ 6 hv6]
      exact hemp 6 (by decide)
    simp only [SpecialMoves.canCastleKingSide?, hfold,
      Board.getPieceRC_eq_getPiece, hk, hr]
    rw [if_neg (by
      rintro (hx | hx)
      · rw [hkm] at hx
        exact Bool.noConfusion hx
      · rw [hrm] at hx
        exact Bool.noConfusion hx)]
    rw [if_neg (by
      rintro (hx | hx)
      · exact hx hkk
      · exact hx hrk)]
    rw [if_neg (by
      rintro (hx | hx)
      · exact hx he5
      · exact hx he6)]
    simp only [hatt 4 (by decide), hatt 5 (by decide), hatt 6 (by decide)]

theorem canCastleQueenSide?_iff (color : Color) (b : Board)
    (hsyncK : ∀ q, b.getPiece ⟨castleRow color, 4⟩ = some q →
      q.pos = ⟨castleRow color, 4⟩)
    (hsyncR : ∀ q, b.getPiece ⟨castleRow color, 0⟩ = some q →
      q.pos = ⟨castleRow color, 0⟩) :
    SpecialMoves.canCastleQueenSide? color b = some true ↔
      specCanCastle color false b := by
  have hrow : castleRow color = 7 ∨ castleRow color = 0 := by
    cases color
    · exact Or.inl rfl
    · exact Or.inr rfl
  have hfold : (if color = Color.white then (7 : Int) else 0) = castleRow color :=
    rfl
  have hv1 : (Position.mk (castleRow color) 1).isValid := by
    rcases hrow with h | h <;> rw [h] <;> decide
  have hv2 : (Position.mk (castleRow color) 2).isValid := by
    rcases hrow with h | h <;> rw [h] <;> decide
  have hv3 : (Position.mk (castleRow color) 3).isValid := by
    rcases hrow with h | h <;> rw [h] <;> decide
  have hcast : (((castleRow color).toNat : Int)) = castleRow color := by
    rcases hrow with h | h <;> rw [h] <;> rfl
  have hm4 : ((castleRow color).toNat, 4) ∈ allSquaresRM := by
    rcases hrow with h | h <;> rw [h] <;> decide
  have hm0 : ((castleRow color).toNat, 0) ∈ allSquaresRM := by
    rcases hrow with h | h <;> rw [h] <;> decide
  constructor
  · intro hcode
    simp only [SpecialMoves.canCastleQueenSide?, hfold,
      Board.getPieceRC_eq_getPiece] at hcode
    cases hk : b.getPiece ⟨castleRow color, 4⟩ with
    | none =>
      simp only [hk] at hcode
      exact Bool.noConfusion (Option.some.inj hcode)
    | some king =>
      cases hr : b.getPiece ⟨castleRow color, 0⟩ with
      | none =>
        simp only [hk, hr] at hcode
        exact Bool.noConfusion (Option.some.inj hcode)
      | some rook =>
        simp only [hk, hr] at hcode
        by_cases h1 : (king.hasMoved = true ∨ rook.hasMoved = true)
        · rw [if_pos h1] at hcode
          exact Bool.noConfusion (Option.some.inj hcode)
        · rw [if_neg h1] at hcode
          by_cases h2 : (¬ (king.kind = PieceKind.king) ∨
            ¬ (rook.kind = PieceKind.rook))
          · rw [if_pos h2] at hcode
            exact Bool.noConfusion (Option.some.inj hcode)
          · rw [if_neg h2] at hcode
            by_cases h3 : (¬ b.isEmptyRC (castleRow color) 1 = true ∨
              ¬ b.isEmptyRC (castleRow color) 2 = true ∨
              ¬ b.isEmptyRC (castleRow color) 3 = true)
            · rw [if_pos h3] at hcode
              exact Bool.noConfusion (Option.some.inj hcode)
            · rw [if_neg h3] at hcode
              cases ha4 : b.isUnderAttack? ⟨castleRow color, 4⟩ (enemyOf color) with
              | none =>
                simp only [ha4] at hcode
                exact Option.noConfusion hcode
              | some v4 =>
                cases v4 with
                | true =>
                  simp only [ha4] at hcode
                  exact Bool.noConfusion (Option.some.inj hcode)
                | false =>
                simp only [ha4] at hcode
                cases ha3 : b.isUnderAttack? ⟨castleRow color, 3⟩ (enemyOf color) with
                | none =>
                  simp only [ha3] at hcode
                  exact Option.noConfusion hcode
                | some v3 =>
                  cases v3 with
                  | true =>
                    simp only [ha3] at hcode
                    exact Bool.noConfusion (Option.some.inj hcode)
                  | false =>
                  simp only [ha3] at hcode
                  cases ha2 : b.isUnderAttack? ⟨castleRow color, 2⟩ (enemyOf color) with
                  | none =>
                    simp only [ha2] at hcode
                    exact Option.noConfusion hcode
                  | some v2 =>
                    cases v2 with
                    | true =>
                      simp only [ha2] at hcode
                      exact Bool.noConfusion (Option.some.inj hcode)
                    | false =>
                    have hkm : king.hasMoved = false := by
                      cases hx : king.hasMoved
                      · rfl
                      · exact absurd (Or.inl hx) h1
                    have hrm : rook.hasMoved = false := by
                      cases hx : rook.hasMoved
                      · rfl
                      · exact absurd (Or.inr hx) h1
                    have hkk : king.kind = PieceKind.king := by
                      by_cases hx : king.kind = PieceKind.king
                      · exact hx
                      · exact absurd (Or.inl hx) h2
                    have hrk : rook.kind = PieceKind.rook := by
                      by_cases hx : rook.kind = PieceKind.rook
                      · exact hx
                      · exact absurd (Or.inr hx) h2
                    have he1rc : b.isEmptyRC (castleRow color) 1 = true := by
                      by_cases hx : b.isEmptyRC (castleRow color) 1 = true
                      · exact hx
                      · exact absurd (Or.inl hx) h3
                    have he2rc : b.isEmptyRC (castleRow color) 2 = true := by
                      by_cases hx : b.isEmptyRC (castleRow color) 2 = true
                      · exact hx
                      · exact absurd (Or.inr (Or.inl hx)) h3
                    have he3rc : b.isEmptyRC (castleRow color) 3 = true := by
                      by_cases hx : b.isEmptyRC (castleRow color) 3 = true
                      · exact hx
                      · exact absurd (Or.inr (Or.inr hx)) h3
                    have he1 : b.isEmpty ⟨castleRow color, 1⟩ = true := by
                      rw [← Board.isEmptyRC_eq_isEmpty b _ 1 hv1]
                      exact he1rc
                    have he2 : b.isEmpty ⟨castleRow color, 2⟩ = true := by
                      rw [← Board.isEmptyRC_eq_isEmpty b _ 2 hv2]
                      exact he2rc
                    have he3 : b.isEmpty ⟨castleRow color, 3⟩ = true := by
                      rw [← Board.isEmptyRC_eq_isEmpty b _ 3 hv3]
                      exact he3rc
                    by_cases hkc : king.color = color
                    · by_cases hrc : rook.color = color
                      · refine ⟨⟨king, hk, hkc, hkk, hkm⟩,
                          ⟨rook, hr, hrc, hrk, hrm⟩, ?_, ?_⟩
                        · intro cc hcc
                          have hcc' : cc ∈ ([1, 2, 3] : List Int) := hcc
                          fin_cases hcc'
                          · exact he1
                          · exact he2
                          · exact he3
                        · intro cc hcc
                          have hcc' : cc ∈ ([4, 3, 2] : List Int) := hcc
                          fin_cases hcc'
                          · exact ha4
                          · exact ha3
                          · exact ha2
                      · exfalso
                        have hrcE : rook.color = enemyOf color :=
                          enemyOf_of_ne _ _ hrc
                        have hrpos : rook.pos = ⟨castleRow color, 0⟩ :=
                          hsyncR rook hr
                        have hpath : b.isPathClear ⟨castleRow color, 0⟩
                            ⟨castleRow color, 2⟩ = true := by
                          have he1b := he1rc
                          rcases hrow with h | h
                          · rw [h] at he1b ⊢
                            rw [show b.isPathClear ⟨(7 : Int), 0⟩ ⟨(7 : Int), 2⟩ =
                              (if ¬ b.isEmptyRC 7 1 = true then false else true)
                              from rfl]
                            rw [if_neg (not_not_intro he1b)]
                          · rw [h] at he1b ⊢
                            rw [show b.isPathClear ⟨(0 : Int), 0⟩ ⟨(0 : Int), 2⟩ =
                              (if ¬ b.isEmptyRC 0 1 = true then false else true)
                              from rfl]
                            rw [if_neg (not_not_intro he1b)]
                        have hrv : rook.isValidMove? ⟨castleRow color, 2⟩ b =
                            some true := by
                          have hcore : Rook.isValidMove? rook
                              ⟨castleRow color, 2⟩ b = some true := by
                            refine Rook.isValidMove?_true rook _ b ?_ ?_ ?_ he2
                            · rw [hrpos]
                              intro hx
                              have hx2 : (0 : Int) = 2 :=
                                congrArg Position.col hx
                              exact absurd hx2 (by decide)
                            · rw [hrpos]
                            · rw [hrpos]
                              exact hpath
                          simp only [Piece.isValidMove?, hrk]
                          exact hcore
                        have hgp : b.getPieceRC (((castleRow color).toNat : Nat) : Int)
                            ((0 : Nat) : Int) = some rook := by
                          rw [Board.getPieceRC_eq_getPiece, hcast]
                          exact hr
                        exact Board.attackScan_false_all b ⟨castleRow color, 2⟩
                          (enemyOf color) allSquaresRM ha2
                          ((castleRow color).toNat, 0) hm0 rook hgp hrcE hrv
                    · exfalso
                      have hkcE : king.color = enemyOf color :=
                        enemyOf_of_ne _ _ hkc
                      have hkpos : king.pos = ⟨castleRow color, 4⟩ :=
                        hsyncK king hk
                      have hkv : king.isValidMove? ⟨castleRow color, 3⟩ b =
                          some true := by
                        have hcore : King.isValidMove? king
                            ⟨castleRow color, 3⟩ b = some true := by
                          refine King.isValidMove?_step king _ b ?_ ?_ ?_ he3
                          · rw [hkpos]
                            show (castleRow color - castleRow color).natAbs ≤ 1
                            omega
                          · rw [hkpos]
                            show ((3 : Int) - 4).natAbs ≤ 1
                            decide
                          · rw [hkpos]
                            intro hx
                            have hx2 : (3 : Int) = 4 := hx.2
                            exact absurd hx2 (by decide)
                        simp only [Piece.isValidMove?, hkk]
                        exact hcore
                      have hgp : b.getPieceRC (((castleRow color).toNat : Nat) : Int)
                          ((4 : Nat) : Int) = some king := by
                        rw [Board.getPieceRC_eq_getPiece, hcast]
                        exact hk
                      exact Board.attackScan_false_all b ⟨castleRow color, 3⟩
                        (enemyOf color) allSquaresRM ha3
                        ((castleRow color).toNat, 4) hm4 king hgp hkcE hkv
  · intro hspec
    obtain ⟨king, hk, hkc, hkk, hkm⟩ :
        ∃ king, b.getPiece ⟨castleRow color, 4⟩ = some king ∧
          king.color = color ∧ king.kind = PieceKind.king ∧
          king.hasMoved = false := hspec.1
    obtain ⟨rook, hr, hrc, hrk, hrm⟩ :
        ∃ rook, b.getPiece ⟨castleRow color, 0⟩ = some rook ∧
          rook.color = color ∧ rook.kind = PieceKind.rook ∧
          rook.hasMoved = false := hspec.2.1
    have hemp : ∀ cc ∈ ([1, 2, 3] : List Int),
        b.isEmpty ⟨castleRow color, cc⟩ = true := hspec.2.2.1
    have hatt : ∀ cc ∈ ([4, 3, 2] : List Int),
        b.isUnderAttack? ⟨castleRow color, cc⟩ (enemyOf color) = some false :=
      hspec.2.2.2
    have he1 : b.isEmptyRC (castleRow color) 1 = true := by
      rw [Board.isEmptyRC_eq_isEmpty b _ 1 hv1]
      exact hemp 1 (by decide)
    have he2 : b.isEmptyRC (castleRow color) 2 = true := by
      rw [Board.isEmptyRC_eq_isEmpty b _ 2 hv2]
      exact hemp 2 (by decide)
    have he3 : b.isEmptyRC (castleRow color) 3 = true := by
      rw [Board.isEmptyRC_eq_isEmpty b _ 3 hv3]
      exact hemp 3 (by decide)
    simp only [SpecialMoves.canCastleQueenSide?, hfold,
      Board.getPieceRC_eq_getPiece, hk, hr]
    rw [if_neg (by
      rintro (hx | hx)
      · rw [hkm] at hx
        exact Bool.noConfusion hx
      · rw [hrm] at hx
        exact Bool.noConfusion hx)]
    rw [if_neg (by
      rintro (hx | hx)
      · exact hx hkk
      · exact hx hrk)]
    rw [if_neg (by
      rintro (hx | hx | hx)
      · exact hx he1
      · exact hx he2
      · exact hx he3)]
    simp only [hatt 4 (by decide), hatt 3 (by decide), hatt 2 (by decide)]

/-- **C4**: `canCastle` answers `true` exactly under the spec's precondition —
king and relevant rook of the castling color on their home squares, never
moved, right variants, the squares between them empty, and the king's square
plus its transit squares (destination included, queenside b-file excluded)
not attacked.  The code never tests the two pieces' colors, so the claim
needs the §3 placement/position invariant at the two home squares: a
wrong-colored "king"/"rook" found there would itself attack one of the
checked transit squares, forcing `false` either way. -/
theorem c4_canCastle_iff_spec (color : Color) (kingSide : Bool) (b : Board)
    (hsyncK : ∀ q, b.getPiece ⟨castleRow color, 4⟩ = some q →
      q.pos = ⟨castleRow color, 4⟩)
    (hsyncR : ∀ q,
      b.getPiece ⟨castleRow color, if kingSide then 7 else 0⟩ = some q →
      q.pos = ⟨castleRow color, if kingSide then 7 else 0⟩) :
    SpecialMoves.canCastle? color kingSide b = some true ↔
      specCanCastle color kingSide b := by
  cases kingSide
  · exact canCastleQueenSide?_iff color b hsyncK hsyncR
  · exact canCastleKingSide?_iff color b hsyncK hsyncR

def c4wKing : Piece := ⟨Color.white, ⟨7, 4⟩, false, PieceKind.king⟩

def c4wRook : Piece := ⟨Color.white, ⟨7, 7⟩, false, PieceKind.rook⟩

def c4wBRook : Piece := ⟨Color.black, ⟨0, 0⟩, false, PieceKind.rook⟩

def c4wBoard : Board :=
  { squares := fun i j =>
      if i.val = 7 ∧ j.val = 4 then some c4wKing
      else if i.val = 7 ∧ j.val = 7 then some c4wRook
      else if i.val = 0 ∧ j.val = 0 then some c4wBRook
      else none
    enPassantTarget := ⟨0, 0⟩
    enPassantAvailable := false }

theorem c4_canCastle_iff_spec_witness : specCanCastle Color.white true c4wBoard :=
  (c4_canCastle_iff_spec Color.white true c4wBoard
    (fun q hq => by
      have h2 : some c4wKing = some q := hq
      cases h2
      rfl)
    (fun q hq => by
      have h2 : some c4wRook = some q := hq
      cases h2
      rfl)).mp (by decide)

/-! ### C7 — pattern legality rejects zero displacement and same-color capture -/

/-- **C7 (amended)**: every piece's `isValidMove` rejects a zero-displacement
move, and rejects a destination occupied by a same-color piece — except in
one case the original claim misses: a pawn whose destination is the active
en-passant target square answers `true` without ever looking at the
destination's occupant, so a same-color occupant of that square does not make
it answer `false`. -/
theorem c7_pattern_rejections (p : Piece) (dst : Position) (b : Board) :
    p.isValidMove? p.pos b = some false ∧
    (∀ q, b.getPiece dst = some q → q.color = p.color →
      ¬ (p.kind = PieceKind.pawn ∧ b.enPassantAvailable = true ∧
        dst = b.enPassantTarget) →
      p.isValidMove? dst b = some false) :=
  ⟨pieceValid_self p b,
   fun q hq hcol hnep => pieceValid_same_color p dst b q hq hcol hnep⟩

def c7Rook : Piece := ⟨Color.white, ⟨0, 0⟩, false, PieceKind.rook⟩

def c7Knight : Piece := ⟨Color.white, ⟨0, 1⟩, false, PieceKind.knight⟩

def c7Board : Board :=
  { squares := fun i j =>
      if i.val = 0 ∧ j.val = 0 then some c7Rook
      else if i.val = 0 ∧ j.val = 1 then some c7Knight
      else none
    enPassantTarget := ⟨0, 0⟩
    enPassantAvailable := false }

theorem c7_pattern_rejections_witness :
    c7Rook.isValidMove? c7Rook.pos c7Board = some false ∧
    c7Rook.isValidMove? ⟨0, 1⟩ c7Board = some false :=
  ⟨(c7_pattern_rejections c7Rook ⟨0, 1⟩ c7Board).1,
   (c7_pattern_rejections c7Rook ⟨0, 1⟩ c7Board).2 c7Knight (by decide)
     (by decide) (by decide)⟩

def c7cPawn : Piece := ⟨Color.white, ⟨4, 4⟩, true, PieceKind.pawn⟩

def c7cKnight : Piece := ⟨Color.white, ⟨3, 5⟩, true, PieceKind.knight⟩

def c7cBoard : Board :=
  { squares := fun i j =>
      if i.val = 4 ∧ j.val = 4 then some c7cPawn
      else if i.val = 3 ∧ j.val = 5 then some c7cKnight
      else none
    enPassantTarget := ⟨3, 5⟩
    enPassantAvailable := true }

/-- A white pawn on (4,4) is allowed to "move" onto (3,5) even though a white
knight stands there, because (3,5) is the active en-passant target: the
pawn's en-passant branch fires before any occupancy check. -/
theorem c7_counterexample :
    c7cBoard.getPiece ⟨3, 5⟩ = some c7cKnight ∧
    c7cKnight.color = c7cPawn.color ∧
    c7cPawn.isValidMove? ⟨3, 5⟩ c7cBoard = some true := by
  decide

/-! ### C9 — captured-piece bookkeeping -/

theorem playerOf_congr (a b : GameState) (hw : a.whitePlayer = b.whitePlayer)
    (hb : a.blackPlayer = b.blackPlayer) (c : Color) :
    a.playerOf c = b.playerOf c := by
  unfold GameState.playerOf
  split
  · rw [hw]
  · rw [hb]

/-- **C9 (amended)**: after a successful `makeMove`, a player's
captured-piece value increases exactly by the value of an ENEMY piece that
stood on the destination square before the move (for the mover), and is
unchanged otherwise.  In particular an en-passant capture — where the
destination square is empty — adds nothing.  The stored-position hypothesis
on the moving piece is the §3 data-model invariant. -/
theorem c9_captured_value (g g' : GameState) (fs ts : List Char) (pc : Char)
    (hsync : ∀ q, g.board.getPiece (Game.parsePosition fs) = some q →
      q.pos = Game.parsePosition fs)
    (h : Game.makeMove? g fs ts pc = some (MoveResult.ok g')) (c : Color) :
    (g'.playerOf c).capturedPieceValue =
      (g.playerOf c).capturedPieceValue +
        (match g.board.getPiece (Game.parsePosition ts) with
         | some captured =>
           if ¬ (captured.color = g.currentColor) ∧ c = g.currentColor then
             pieceValue captured.kind
           else 0
         | none => 0) := by
  obtain ⟨piece, b1, hv1, hv2, hfp, hcol, hvm, hw, hexec⟩ :=
    Game.makeMove?_ok_inv g fs ts pc g' h
  obtain ⟨b3, hmt, hb3ep⟩ := Game.execMove_ok_inv _ _ _ _ _ _ hexec
  have hcgs := Game.moveTail_ok_inv _ _ _ _ _ _ hmt
  have hfields := checkGameStatus?_fields _ _ hcgs
  have hne : ¬ (Game.parsePosition ts = Game.parsePosition fs) := by
    intro he
    have hpos := hsync piece hfp
    have hself := pieceValid_self piece g.board
    rw [hpos] at hself
    rw [he, hself] at hvm
    exact Bool.noConfusion (Option.some.inj hvm)
  have hb1 : b1.getPiece (Game.parsePosition ts) =
      g.board.getPiece (Game.parsePosition ts) := by
    obtain ⟨r, hr⟩ := Board.wouldBeInCheck_frame g.board (Game.parsePosition fs)
      (Game.parsePosition ts) g.currentColor piece hv1 hv2 hfp
    rw [hw] at hr
    have hb1eq : b1 = g.board.setPiece (Game.parsePosition fs)
        (some { piece with pos := Game.parsePosition fs }) :=
      congrArg Prod.snd (Option.some.inj hr)
    rw [hb1eq]
    exact Board.getPiece_setPiece_other _ _ _ _ hne
  set fp := Game.parsePosition fs
  set tp := Game.parsePosition ts
  set gmid : GameState := { g with board := b1 }
  set dbl : Bool :=
    decide (piece.kind = PieceKind.pawn ∧ (tp.row - fp.row).natAbs = 2)
  set S : GameState := { Game.captureStep gmid tp with board := b3 }
  set E : GameState := Game.epStep S fp tp dbl
  set P : GameState := Game.promoStep E tp pc
  rw [hfields.2.2.1 c, switchPlayer_playerOf]
  have hpromo := promoStep_nonboard E tp pc
  rw [playerOf_congr P E hpromo.2.2.2.1 hpromo.2.2.2.2 c]
  have hep := epStep_nonboard S fp tp dbl
  rw [playerOf_congr E S hep.2.2.2.1 hep.2.2.2.2 c]
  have hSS : S.playerOf c = (Game.captureStep gmid tp).playerOf c :=
    playerOf_congr S (Game.captureStep gmid tp) rfl rfl c
  rw [hSS, captureStep_captured gmid tp c]
  show (g.playerOf c).capturedPieceValue +
      (match b1.getPiece tp with
       | some captured =>
         if ¬ (captured.color = g.currentColor) ∧ c = g.currentColor then
           pieceValue captured.kind
         else 0
       | none => 0) = _
  rw [hb1]

def c9wRook : Piece := ⟨Color.white, ⟨7, 0⟩, false, PieceKind.rook⟩

def c9wBPawn : Piece := ⟨Color.black, ⟨1, 0⟩, false, PieceKind.pawn⟩

def c9wBRook : Piece := ⟨Color.black, ⟨0, 7⟩, false, PieceKind.rook⟩

def c9wGame : GameState :=
  { board :=
      { squares := fun i j =>
          if i.val = 7 ∧ j.val = 0 then some c9wRook
          else if i.val = 1 ∧ j.val = 0 then some c9wBPawn
          else if i.val = 0 ∧ j.val = 7 then some c9wBRook
          else none
        enPassantTarget := ⟨0, 0⟩
        enPassantAvailable := false }
    whitePlayer := ⟨"White", Color.white, false, 0, 0⟩
    blackPlayer := ⟨"Black", Color.black, false, 0, 0⟩
    currentIsWhite := true
    gameOver := false
    winner := "" }

theorem c9_captured_value_witness :
    ∃ g', Game.makeMove? c9wGame ['a', '1'] ['a', '7'] 'Q' =
        some (MoveResult.ok g') ∧
      (g'.playerOf Color.white).capturedPieceValue =
        (c9wGame.playerOf Color.white).capturedPieceValue +
          pieceValue PieceKind.pawn := by
  have hok : (match Game.makeMove? c9wGame ['a', '1'] ['a', '7'] 'Q' with
      | some (MoveResult.ok _) => true
      | _ => false) = true := by decide
  rcases hr : Game.makeMove? c9wGame ['a', '1'] ['a', '7'] 'Q' with _ | r
  · rw [hr] at hok
    exact Bool.noConfusion hok
  · rcases r with g' | gf | ⟨msg, gf⟩
    · refine ⟨g', rfl, ?_⟩
      have hmain := c9_captured_value c9wGame g' ['a', '1'] ['a', '7'] 'Q'
        (fun q hq => by
          have h2 : some c9wRook = some q := hq
          cases h2
          rfl)
        hr Color.white
      have hm : (match c9wGame.board.getPiece (Game.parsePosition ['a', '7']) with
         | some captured =>
           if ¬ (captured.color = c9wGame.currentColor) ∧
               Color.white = c9wGame.currentColor then
             pieceValue captured.kind
           else 0
         | none => 0) = pieceValue PieceKind.pawn := by decide
      rw [hm] at hmain
      exact hmain
    · rw [hr] at hok
      exact Bool.noConfusion hok
    · rw [hr] at hok
      exact Bool.noConfusion hok

def c9cWPawn : Piece := ⟨Color.white, ⟨3, 4⟩, true, PieceKind.pawn⟩

def c9cBPawn : Piece := ⟨Color.black, ⟨3, 3⟩, true, PieceKind.pawn⟩

def c9cBRook : Piece := ⟨Color.black, ⟨0, 0⟩, false, PieceKind.rook⟩

def c9cGame : GameState :=
  { board :=
      { squares := fun i j =>
          if i.val = 3 ∧ j.val = 4 then some c9cWPawn
          else if i.val = 3 ∧ j.val = 3 then some c9cBPawn
          else if i.val = 0 ∧ j.val = 0 then some c9cBRook
          else none
        enPassantTarget := ⟨2, 3⟩
        enPassantAvailable := true }
    whitePlayer := ⟨"White", Color.white, false, 0, 0⟩
    blackPlayer := ⟨"Black", Color.black, false, 0, 0⟩
    currentIsWhite := true
    gameOver := false
    winner := "" }

/-- The en-passant move "e5 d6" captures the black pawn on d5 (square (3,3)):
the pawn disappears from the board, yet the mover's `capturedPieceValue` stays
0, because the bookkeeping only looks at the destination square (2,3), which
is empty before the move. -/
theorem c9_counterexample :
    c9cGame.board.getPiece ⟨3, 3⟩ = some c9cBPawn ∧
    pieceValue c9cBPawn.kind = 1 ∧
    (Game.makeMove? c9cGame ['e', '5'] ['d', '6'] 'Q').map
      (fun r => (r.state.board.getPiece ⟨3, 3⟩,
        (r.state.playerOf Color.white).capturedPieceValue,
        match r with
        | MoveResult.ok _ => true
        | _ => false)) = some (none, 0, true) := by
  decide

/-! ### C6 — en-passant availability lasts exactly one ply -/

/-- **C6**: after a successful `makeMove` the en-passant flag is set iff that
ply was a pawn double step (and then the target is the jumped-over square);
any previously set flag is cleared either way.  A completed castle always
leaves the flag cleared. -/
theorem c6_en_passant_one_ply (g g' g2c : GameState) (fs ts : List Char)
    (pc : Char) (cmd : String) :
    (Game.makeMove? g fs ts pc = some (MoveResult.ok g') →
      (g'.board.enPassantAvailable = true ↔
        (∃ p, g.board.getPiece (Game.parsePosition fs) = some p ∧
          p.kind = PieceKind.pawn ∧
          ((Game.parsePosition ts).row - (Game.parsePosition fs).row).natAbs = 2)) ∧
      (g'.board.enPassantAvailable = true →
        g'.board.enPassantTarget =
          ⟨((Game.parsePosition fs).row + (Game.parsePosition ts).row) / 2,
            (Game.parsePosition fs).col⟩)) ∧
    (Game.handleCastling? g cmd = some (MoveResult.ok g2c) →
      g2c.board.enPassantAvailable = false) := by
  constructor
  · intro h
    obtain ⟨piece, b1, hv1, hv2, hfp, hcol, hvm, hw, hexec⟩ :=
      Game.makeMove?_ok_inv g fs ts pc g' h
    obtain ⟨b3, hmt, hb3ep⟩ := Game.execMove_ok_inv _ _ _ _ _ _ hexec
    have hcgs := Game.moveTail_ok_inv _ _ _ _ _ _ hmt
    have hfields := checkGameStatus?_fields _ _ hcgs
    set fp := Game.parsePosition fs
    set tp := Game.parsePosition ts
    set gmid : GameState := { g with board := b1 }
    set dbl : Bool :=
      decide (piece.kind = PieceKind.pawn ∧ (tp.row - fp.row).natAbs = 2)
    set S : GameState := { Game.captureStep gmid tp with board := b3 }
    set E : GameState := Game.epStep S fp tp dbl
    set P : GameState := Game.promoStep E tp pc
    have havail : g'.board.enPassantAvailable =
        (if dbl = true then true else false) := by
      rw [hfields.1, switchPlayer_board, (promoStep_ep E tp pc).1,
        (epStep_ep S fp tp dbl).1]
      rcases hd : dbl
      · simp only [if_neg (Bool.false_ne_true)]
        exact hb3ep
      · simp
    constructor
    · rw [havail]
      rcases hd : dbl
      · simp only [if_neg (Bool.false_ne_true)]
        constructor
        · intro hx
          exact Bool.noConfusion hx
        · rintro ⟨p, hp, hkind, hdiff⟩
          rw [hfp] at hp
          have hpp : piece = p := Option.some.inj hp
          have hdf : decide (piece.kind = PieceKind.pawn ∧
              (tp.row - fp.row).natAbs = 2) = false := hd
          have := of_decide_eq_false hdf
          exact absurd ⟨by rw [hpp]; exact hkind, hdiff⟩ this
      · simp only [if_pos rfl]
        constructor
        · intro _
          have hdt : decide (piece.kind = PieceKind.pawn ∧
              (tp.row - fp.row).natAbs = 2) = true := hd
          have hprop := of_decide_eq_true hdt
          exact ⟨piece, hfp, hprop.1, hprop.2⟩
        · intro _
          rfl
    · intro hav
      rw [havail] at hav
      rcases hd : dbl
      · rw [hd] at hav
        simp at hav
      · rw [hfields.1, switchPlayer_board, (promoStep_ep E tp pc).2]
        exact (epStep_ep S fp tp dbl).2 hd
  · intro h
    obtain ⟨b2, hpc2, hcgs⟩ := Game.handleCastling?_ok_inv g cmd g2c h
    have hfields := checkGameStatus?_fields _ _ hcgs
    rw [hfields.1]
    rfl

def c6Pawn : Piece := ⟨Color.white, ⟨6, 4⟩, false, PieceKind.pawn⟩

def c6BRook : Piece := ⟨Color.black, ⟨0, 0⟩, false, PieceKind.rook⟩

def c6Game : GameState :=
  { board :=
      { squares := fun i j =>
          if i.val = 6 ∧ j.val = 4 then some c6Pawn
          else if i.val = 0 ∧ j.val = 0 then some c6BRook
          else none
        enPassantTarget := ⟨0, 0⟩
        enPassantAvailable := false }
    whitePlayer := ⟨"White", Color.white, false, 0, 0⟩
    blackPlayer := ⟨"Black", Color.black, false, 0, 0⟩
    currentIsWhite := true
    gameOver := false
    winner := "" }

theorem c6_en_passant_one_ply_witness :
    ∃ g', Game.makeMove? c6Game ['e', '2'] ['e', '4'] 'Q' =
        some (MoveResult.ok g') ∧
      g'.board.enPassantAvailable = true ∧
      g'.board.enPassantTarget = ⟨5, 4⟩ := by
  have hok : (match Game.makeMove? c6Game ['e', '2'] ['e', '4'] 'Q' with
      | some (MoveResult.ok _) => true
      | _ => false) = true := by decide
  rcases hr : Game.makeMove? c6Game ['e', '2'] ['e', '4'] 'Q' with _ | r
  · rw [hr] at hok
    exact Bool.noConfusion hok
  · rcases r with g' | gf | ⟨msg, gf⟩
    · have hpair := (c6_en_passant_one_ply c6Game g' c6Game ['e', '2'] ['e', '4']
        'Q' "kingside").1 hr
      have hav : g'.board.enPassantAvailable = true :=
        hpair.1.mpr ⟨c6Pawn, by decide, by decide, by decide⟩
      refine ⟨g', rfl, hav, ?_⟩
      rw [hpair.2 hav]
      decide
    · rw [hr] at hok
      exact Bool.noConfusion hok
    · rw [hr] at hok
      exact Bool.noConfusion hok

/-! ### C3 — checkmate / stalemate detection after every completed move -/

/-- **C3**: after every completed move (a successful `makeMove` or a
completed castle) of a running game with no winner recorded, the game is over
exactly when the new current player has no legal move, and a winner — the
other player — is recorded exactly when that player is also in check
(checkmate); with no check, no winner is recorded (stalemate). -/
theorem c3_terminal_detection (g g' g2c : GameState) (fs ts : List Char)
    (pc : Char) (cmd : String) :
    (Game.makeMove? g fs ts pc = some (MoveResult.ok g') →
      g.gameOver = false → g.winner = "" → TerminalPost g') ∧
    (Game.handleCastling? g cmd = some (MoveResult.ok g2c) →
      g.gameOver = false → g.winner = "" → TerminalPost g2c) := by
  constructor
  · intro h hover hwin
    obtain ⟨piece, b1, hv1, hv2, hfp, hcol, hvm, hw, hexec⟩ :=
      Game.makeMove?_ok_inv g fs ts pc g' h
    obtain ⟨b3, hmt, hb3ep⟩ := Game.execMove_ok_inv _ _ _ _ _ _ hexec
    have hcgs := Game.moveTail_ok_inv _ _ _ _ _ _ hmt
    set fp := Game.parsePosition fs
    set tp := Game.parsePosition ts
    set gmid : GameState := { g with board := b1 }
    set dbl : Bool :=
      decide (piece.kind = PieceKind.pawn ∧ (tp.row - fp.row).natAbs = 2)
    set S : GameState := { Game.captureStep gmid tp with board := b3 }
    set E : GameState := Game.epStep S fp tp dbl
    set P : GameState := Game.promoStep E tp pc
    refine checkGameStatus?_terminal _ _ hcgs ?_ ?_
    · rw [switchPlayer_gameOver, (promoStep_nonboard E tp pc).1,
        (epStep_nonboard S fp tp dbl).1]
      show (Game.captureStep gmid tp).gameOver = false
      rw [(captureStep_nonplayers gmid tp).2.1]
      exact hover
    · rw [switchPlayer_winner, (promoStep_nonboard E tp pc).2.1,
        (epStep_nonboard S fp tp dbl).2.1]
      show (Game.captureStep gmid tp).winner = ""
      rw [(captureStep_nonplayers gmid tp).2.2.1]
      exact hwin
  · intro h hover hwin
    obtain ⟨b2, hpc2, hcgs⟩ := Game.handleCastling?_ok_inv g cmd g2c h
    refine checkGameStatus?_terminal _ _ hcgs ?_ ?_
    · exact hover
    · exact hwin

def c3wRook : Piece := ⟨Color.white, ⟨7, 0⟩, false, PieceKind.rook⟩

def c3wBRook : Piece := ⟨Color.black, ⟨0, 7⟩, false, PieceKind.rook⟩

def c3wGame : GameState :=
  { board :=
      { squares := fun i j =>
          if i.val = 7 ∧ j.val = 0 then some c3wRook
          else if i.val = 0 ∧ j.val = 7 then some c3wBRook
          else none
        enPassantTarget := ⟨0, 0⟩
        enPassantAvailable := false }
    whitePlayer := ⟨"White", Color.white, false, 0, 0⟩
    blackPlayer := ⟨"Black", Color.black, false, 0, 0⟩
    currentIsWhite := true
    gameOver := false
    winner := "" }

theorem c3_terminal_detection_witness :
    ∃ g', Game.makeMove? c3wGame ['a', '1'] ['a', '2'] 'Q' =
        some (MoveResult.ok g') ∧ TerminalPost g' := by
  have hok : (match Game.makeMove? c3wGame ['a', '1'] ['a', '2'] 'Q' with
      | some (MoveResult.ok _) => true
      | _ => false) = true := by decide
  rcases hr : Game.makeMove? c3wGame ['a', '1'] ['a', '2'] 'Q' with _ | r
  · rw [hr] at hok
    exact Bool.noConfusion hok
  · rcases r with g' | gf | ⟨msg, gf⟩
    · exact ⟨g', rfl, (c3_terminal_detection c3wGame g' c3wGame ['a', '1']
        ['a', '2'] 'Q' "kingside").1 hr rfl rfl⟩
    · rw [hr] at hok
      exact Bool.noConfusion hok
    · rw [hr] at hok
      exact Bool.noConfusion hok

/-! ### C10 — placement / stored-position synchronization -/

/-- The §3 data-model invariant: every piece standing on square `(i, j)`
stores `(i, j)` as its position. -/
def Synced (b : Board) : Prop :=
  ∀ (i j : Fin 8) (p : Piece), b.squares i j = some p →
    p.pos = ⟨(i.val : Int), (j.val : Int)⟩

/-- The game states produced by the program's own operations, starting from
the constructor state: any outcome of `makeMove` (including failures and
thrown errors, which also leave a state behind), any outcome of
`handleCastling`, and the board left behind by a `wouldBeInCheck`
simulation. -/
inductive Reachable : GameState → Prop where
  | init : Reachable initialGame
  | move (g : GameState) (fs ts : List Char) (pc : Char) (r : MoveResult) :
      Reachable g → Game.makeMove? g fs ts pc = some r → Reachable r.state
  | castle (g : GameState) (cmd : String) (r : MoveResult) :
      Reachable g → Game.handleCastling? g cmd = some r → Reachable r.state
  | simulate (g : GameState) (src dst : Position) (c : Color) (chk : Bool)
      (b2 : Board) : Reachable g →
      g.board.wouldBeInCheck? src dst c = some (chk, b2) →
      Reachable { g with board := b2 }

theorem Synced.setPiece (b : Board) (pos : Position) (v : Option Piece)
    (hb : Synced b) (hv : ∀ p, v = some p → p.pos = pos) :
    Synced (b.setPiece pos v) := by
  intro i j p hp
  rw [Board.setPiece] at hp
  by_cases hval : pos.isValid
  · rw [if_pos hval] at hp
    have hp' : (if i.val = pos.row.toNat ∧ j.val = pos.col.toNat then v
        else b.squares i j) = some p := hp
    by_cases hij : (i.val = pos.row.toNat ∧ j.val = pos.col.toNat)
    · rw [if_pos hij] at hp'
      obtain ⟨hv1, hv2, hv3, hv4⟩ := hval
      rw [hv p hp']
      refine Position.eq_of_components ?_ ?_
      · show pos.row = (i.val : Int)
        have h1 := hij.1
        omega
      · show pos.col = (j.val : Int)
        have h2 := hij.2
        omega
    · rw [if_neg hij] at hp'
      exact hb i j p hp'
  · rw [if_neg hval] at hp
    exact hb i j p hp

theorem Synced.getPiece (b : Board) (hb : Synced b) (pos : Position) (p : Piece)
    (hp : b.getPiece pos = some p) : p.pos = pos := by
  by_cases hval : pos.isValid
  · rw [Board.getPiece, dif_pos hval] at hp
    rw [hb _ _ p hp]
    obtain ⟨h1, h2, h3, h4⟩ := hval
    refine Position.eq_of_components ?_ ?_
    · show ((pos.row.toNat : Int)) = pos.row
      omega
    · show ((pos.col.toNat : Int)) = pos.col
      omega
  · rw [Board.getPiece, dif_neg hval] at hp
    exact Option.noConfusion hp

theorem Synced.removePiece (b : Board) (pos : Position) (hb : Synced b) :
    Synced (b.removePiece pos).2 := by
  rw [Board.removePiece]
  by_cases hval : pos.isValid
  · rw [if_pos hval]
    exact Synced.setPiece b pos none hb (fun p hp => Option.noConfusion hp)
  · rw [if_neg hval]
    exact hb

theorem Synced.movePiece (b : Board) (src dst : Position) (hb : Synced b) :
    Synced (b.movePiece src dst).2 := by
  rw [Board.movePiece_eq]
  by_cases h1 : (¬ src.isValid ∨ ¬ dst.isValid)
  · rw [if_pos h1]
    exact hb
  · rw [if_neg h1]
    by_cases h2 : b.isEmpty src = true
    · rw [if_pos h2]
      exact hb
    · rw [if_neg h2]
      by_cases h3 : src = dst
      · rw [if_pos h3]
        exact Synced.setPiece _ _ _ hb (fun p hp => Option.noConfusion hp)
      · rw [if_neg h3]
        cases hg : b.getPiece src with
        | none =>
          simp only [hg]
          exact hb
        | some p =>
          simp only [hg]
          refine Synced.setPiece _ _ _
            (Synced.setPiece _ _ _
              (Synced.setPiece _ _ _ hb (fun q hq => Option.noConfusion hq))
              (fun q hq => Option.noConfusion hq)) ?_
          intro q hq
          cases Option.some.inj hq
          rfl

theorem Synced.wouldBeInCheck (b : Board) (src dst : Position) (c : Color)
    (v : Bool) (b2 : Board) (hb : Synced b)
    (h : b.wouldBeInCheck? src dst c = some (v, b2)) : Synced b2 := by
  by_cases h1 : (¬ src.isValid ∨ ¬ dst.isValid)
  · rw [Board.wouldBeInCheck?, if_pos h1] at h
    cases Option.some.inj h
    exact hb
  · have hsv : src.isValid := not_not.mp (not_or.mp h1).1
    have hdv : dst.isValid := not_not.mp (not_or.mp h1).2
    by_cases h2 : b.isEmpty src = true
    · rw [Board.wouldBeInCheck?, if_neg h1, if_pos h2] at h
      cases Option.some.inj h
      exact hb
    · cases hg : b.getPiece src with
      | none =>
        exfalso
        apply h2
        rw [Board.isEmpty, if_pos hsv, hg]
        rfl
      | some p =>
        obtain ⟨r, hr⟩ := Board.wouldBeInCheck_frame b src dst c p hsv hdv hg
        rw [h] at hr
        have hb2 : b2 = b.setPiece src (some { p with pos := src }) :=
          congrArg Prod.snd (Option.some.inj hr)
        rw [hb2]
        refine Synced.setPiece b src _ hb ?_
        intro q hq
        cases Option.some.inj hq
        rfl

theorem Synced.performEnPassant (src dst : Position) (b b2 : Board)
    (hb : Synced b) (h : SpecialMoves.performEnPassant? src dst b = some b2) :
    Synced b2 := by
  rw [SpecialMoves.performEnPassant?] at h
  cases hp : (b.removePiece src).1 with
  | none =>
    simp only [hp] at h
    exact Option.noConfusion h
  | some pawn =>
    simp only [hp] at h
    cases Option.some.inj h
    refine Synced.setPiece _ _ _
      (Synced.removePiece _ _ (Synced.removePiece _ _ hb)) ?_
    intro q hq
    cases Option.some.inj hq
    rfl

theorem Synced.promotePawn (pos : Position) (choice : Char) (b : Board)
    (hb : Synced b) : Synced (SpecialMoves.promotePawn pos choice b) := by
  rw [SpecialMoves.promotePawn]
  cases hp : b.getPiece pos with
  | none =>
    simp only [hp]
    exact hb
  | some piece =>
    simp only [hp]
    by_cases hk : ¬ (piece.kind = PieceKind.pawn)
    · rw [if_pos hk]
      exact hb
    · rw [if_neg hk]
      refine Synced.setPiece _ _ _ (Synced.removePiece _ _ hb) ?_
      intro q hq
      cases Option.some.inj hq
      rfl

theorem Synced.performCastling (color : Color) (kingSide : Bool) (b b2 : Board)
    (hb : Synced b) (h : SpecialMoves.performCastling? color kingSide b = some b2) :
    Synced b2 := by
  rw [SpecialMoves.performCastling?] at h
  set row : Int := if color = Color.white then 7 else 0 with hrowdef
  cases kingSide
  · rw [if_neg (Bool.false_ne_true)] at h
    cases hk1 : (b.removePiece ⟨row, 4⟩).1 with
    | none =>
      simp only [hk1] at h
      exact Option.noConfusion h
    | some king =>
      simp only [hk1] at h
      cases hk2 : (((b.removePiece ⟨row, 4⟩).2.setPiece ⟨row, 2⟩
          (some { king with pos := ⟨row, 2⟩, hasMoved := true })).removePiece
            ⟨row, 0⟩).1 with
      | none =>
        simp only [hk2] at h
        exact Option.noConfusion h
      | some rook =>
        simp only [hk2] at h
        cases Option.some.inj h
        refine Synced.setPiece _ _ _
          (Synced.removePiece _ _
            (Synced.setPiece _ _ _ (Synced.removePiece _ _ hb) ?_)) ?_
        · intro q hq
          cases Option.some.inj hq
          rfl
        · intro q hq
          cases Option.some.inj hq
          rfl
  · rw [if_pos rfl] at h
    cases hk1 : (b.removePiece ⟨row, 4⟩).1 with
    | none =>
      simp only [hk1] at h
      exact Option.noConfusion h
    | some king =>
      simp only [hk1] at h
      cases hk2 : (((b.removePiece ⟨row, 4⟩).2.setPiece ⟨row, 6⟩
          (some { king with pos := ⟨row, 6⟩, hasMoved := true })).removePiece
            ⟨row, 7⟩).1 with
      | none =>
        simp only [hk2] at h
        exact Option.noConfusion h
      | some rook =>
        simp only [hk2] at h
        cases Option.some.inj h
        refine Synced.setPiece _ _ _
          (Synced.removePiece _ _
            (Synced.setPiece _ _ _ (Synced.removePiece _ _ hb) ?_)) ?_
        · intro q hq
          cases Option.some.inj hq
          rfl
        · intro q hq
          cases Option.some.inj hq
          rfl

theorem initialBoard_synced : Synced initialBoard := by
  intro i j p
  show initialSquares i j = some p → p.pos = ⟨(i.val : Int), (j.val : Int)⟩
  rw [initialSquares]
  by_cases h0 : i.val = 0
  · rw [if_pos h0]
    intro hp
    cases Option.some.inj hp
    refine Position.eq_of_components ?_ rfl
    show (0 : Int) = (i.val : Int)
    omega
  · rw [if_neg h0]
    by_cases h1 : i.val = 1
    · rw [if_pos h1]
      intro hp
      cases Option.some.inj hp
      refine Position.eq_of_components ?_ rfl
      show (1 : Int) = (i.val : Int)
      omega
    · rw [if_neg h1]
      by_cases h6 : i.val = 6
      · rw [if_pos h6]
        intro hp
        cases Option.some.inj hp
        refine Position.eq_of_components ?_ rfl
        show (6 : Int) = (i.val : Int)
        omega
      · rw [if_neg h6]
        by_cases h7 : i.val = 7
        · rw [if_pos h7]
          intro hp
          cases Option.some.inj hp
          refine Position.eq_of_components ?_ rfl
          show (7 : Int) = (i.val : Int)
          omega
        · rw [if_neg h7]
          intro hp
          exact Option.noConfusion hp

theorem Synced.checkGameStatus (g g2 : GameState) (hb : Synced g.board)
    (h : Game.checkGameStatus? g = some g2) : Synced g2.board := by
  rw [(checkGameStatus?_fields g g2 h).1]
  exact hb

theorem Synced.moveTail (g : GameState) (fp tp : Position) (dbl : Bool)
    (pc : Char) (r : MoveResult) (hb : Synced g.board)
    (h : Game.moveTail g fp tp dbl pc = some r) : Synced r.state.board := by
  rw [Game.moveTail] at h
  rcases hc : Game.checkGameStatus?
      ((Game.promoStep (Game.epStep g fp tp dbl) tp pc).switchPlayer)
    with _ | g3
  · simp only [hc] at h
    exact Option.noConfusion h
  · simp only [hc] at h
    cases Option.some.inj h
    show Synced g3.board
    refine Synced.checkGameStatus _ _ ?_ hc
    show Synced (Game.promoStep (Game.epStep g fp tp dbl) tp pc).board
    have hep : Synced (Game.epStep g fp tp dbl).board := by
      rw [Game.epStep]
      by_cases hd : dbl = true
      · rw [if_pos hd]
        exact fun i j p hp => hb i j p hp
      · rw [if_neg hd]
        exact hb
    rw [Game.promoStep]
    cases hq : (Game.epStep g fp tp dbl).board.getPiece tp with
    | none =>
      simp only [hq]
      exact hep
    | some piece2 =>
      simp only [hq]
      split_ifs with hcond
      · exact fun i j p hp => Synced.promotePawn tp pc _ hep i j p hp
      · exact hep

theorem Synced.execMove (g : GameState) (fp tp : Position) (piece : Piece)
    (pc : Char) (r : MoveResult) (hb : Synced g.board)
    (h : Game.execMove g fp tp piece pc = some r) : Synced r.state.board := by
  have hcb : Synced (Game.captureStep g tp).board := by
    rw [(captureStep_nonplayers g tp).1]
    exact hb
  simp only [Game.execMove] at h
  split at h
  · rcases hpe : SpecialMoves.performEnPassant? fp tp
        (Game.captureStep g tp).board.clearEnPassant with _ | b3
    · simp only [hpe] at h
      exact Option.noConfusion h
    · simp only [hpe] at h
      refine Synced.moveTail _ _ _ _ _ _ ?_ h
      show Synced b3
      exact Synced.performEnPassant fp tp
        ((Game.captureStep g tp).board.clearEnPassant) b3
        (fun i j p hp => hcb i j p hp) hpe
  · rcases hmv : (Game.captureStep g tp).board.clearEnPassant.movePiece fp tp
      with ⟨mvOk, b3⟩
    simp only [hmv] at h
    have hsb3 : Synced b3 := by
      have hx := Synced.movePiece (Game.captureStep g tp).board.clearEnPassant
        fp tp (fun i j p hp => hcb i j p hp)
      rw [hmv] at hx
      exact hx
    cases mvOk
    · simp only [] at h
      cases Option.some.inj h
      exact hsb3
    · simp only [] at h
      refine Synced.moveTail _ _ _ _ _ _ ?_ h
      exact hsb3

theorem Synced.makeMove (g : GameState) (fs ts : List Char) (pc : Char)
    (r : MoveResult) (hb : Synced g.board)
    (h : Game.makeMove? g fs ts pc = some r) : Synced r.state.board := by
  simp only [Game.makeMove?] at h
  split at h
  · cases Option.some.inj h
    exact hb
  · rcases hfp : g.board.getPiece (Game.parsePosition fs) with _ | piece
    · simp only [hfp] at h
      cases Option.some.inj h
      exact hb
    · simp only [hfp] at h
      split at h
      · cases Option.some.inj h
        exact hb
      · rcases hvm : piece.isValidMove? (Game.parsePosition ts) g.board
          with _ | bv
        · simp only [hvm] at h
          exact Option.noConfusion h
        · cases bv
          · simp only [hvm] at h
            cases Option.some.inj h
            exact hb
          · simp only [hvm] at h
            rcases hw : g.board.wouldBeInCheck? (Game.parsePosition fs)
                (Game.parsePosition ts) g.currentColor with _ | vb
            · simp only [hw] at h
              exact Option.noConfusion h
            · obtain ⟨chk, b1⟩ := vb
              cases chk
              · simp only [hw] at h
                refine Synced.execMove _ _ _ _ _ _ ?_ h
                show Synced b1
                exact Synced.wouldBeInCheck _ _ _ _ _ _ hb hw
              · simp only [hw] at h
                cases Option.some.inj h
                show Synced b1
                exact Synced.wouldBeInCheck _ _ _ _ _ _ hb hw

theorem Synced.handleCastling (g : GameState) (cmd : String) (r : MoveResult)
    (hb : Synced g.board) (h : Game.handleCastling? g cmd = some r) :
    Synced r.state.board := by
  unfold Game.handleCastling? at h
  rcases hcan : (if (cmd = "kingside" : Bool) then
      SpecialMoves.canCastleKingSide? g.currentColor g.board
    else SpecialMoves.canCastleQueenSide? g.currentColor g.board) with _ | can
  · simp only [hcan] at h
    exact Option.noConfusion h
  · simp only [hcan] at h
    cases can
    · simp only [] at h
      cases Option.some.inj h
      exact hb
    · rcases hpc : SpecialMoves.performCastling? g.currentColor
          (cmd = "kingside" : Bool) g.board with _ | b2
      · simp only [hpc] at h
        exact Option.noConfusion h
      · simp only [hpc] at h
        rcases hc : Game.checkGameStatus?
            ({ g with board := b2.clearEnPassant }).switchPlayer with _ | g3
        · simp only [hc] at h
          exact Option.noConfusion h
        · simp only [hc] at h
          cases Option.some.inj h
          show Synced g3.board
          refine Synced.checkGameStatus _ _ ?_ hc
          exact fun i j p hp =>
            Synced.performCastling _ _ _ _ hb hpc i j p hp

/-- **C10**: every board state reachable from the initialized starting
position through the game's operations — `makeMove` in all its outcomes
(normal, en-passant, double-step, promotion, failures and thrown errors),
`handleCastling`, and the board left behind by a `wouldBeInCheck`
simulation — keeps every placed piece's stored position equal to the square
holding it. -/
theorem c10_placement_position_synced (g : GameState) (hreach : Reachable g) :
    Synced g.board := by
  induction hreach with
  | init => exact initialBoard_synced
  | move g fs ts pc r hr hmk ih => exact Synced.makeMove g fs ts pc r ih hmk
  | castle g cmd r hr hc ih => exact Synced.handleCastling g cmd r ih hc
  | simulate g src dst c chk b2 hr hw ih =>
    exact Synced.wouldBeInCheck g.board src dst c chk b2 ih hw

theorem c10_placement_position_synced_witness : Synced initialGame.board :=
  c10_placement_position_synced initialGame Reachable.init

end Chess
